import Mathlib

/-!
# Verification of the DGO object-file database (ObjectFileDB.cpp)

Shallow embedding of the ingestion core of `ObjectFileDB.cpp`:
the deduplication store (`add_obj_from_dgo`), the DGO container parser
(`get_objs_from_dgo`, parsing half), the chunked decompressor
(`get_objs_from_dgo`, jak2 half), and the top-level-segment convention of
`analyze_functions`.

Bytes are modelled as `Nat` (each value < 256 in real data; the model does not
depend on the bound except where explicitly hypothesised).  Byte buffers are
`List Nat`.  The 32-bit fingerprint `crc32` is implemented outside this
translation unit, so it is kept abstract as a function parameter
`crc32 : List Nat → Nat`; every theorem quantifies over it.  The C++
`std::unordered_map`s are modelled as total functions with default `[]`:
`add_obj_from_dgo` only ever accesses them by key (`operator[]`
default-constructs an empty list), so no iteration order exists in the model,
matching the fact that the source never iterates these maps during insertion.
-/

namespace ObjDB

/-- `ObjectFileRecord` (ObjectFileDB.h): identity of one distinct content
variant.  Fields as used at lines 164-183 of ObjectFileDB.cpp. -/
structure ObjectFileRecord where
  name : String
  version : Nat
  hash : Nat
deriving DecidableEq

/-- `ObjectFileRecord::to_unique_name` (line 22-24):
`name + "-v" + std::to_string(version)`. -/
def ObjectFileRecord.to_unique_name (r : ObjectFileRecord) : String :=
  r.name ++ "-v" ++ toString r.version

/-- `ObjectFileData` (ObjectFileDB.h): the stored owned content for one
record.  The `reference_count` field's initial value is declared in
ObjectFileDB.h (not in the shown translation unit); modelled from the spec:
a fresh entry has `reference_count = 1` (the first occurrence counts).  The
opaque `linked_data` enrichment is irrelevant to the store and omitted. -/
structure ObjectFileData where
  data : List Nat
  record : ObjectFileRecord
  reference_count : Nat
deriving DecidableEq

/-- The statistics counters touched by `add_obj_from_dgo`
(lines 158, 186, 187). -/
structure ObjectFileDBStats where
  total_obj_files : Nat
  unique_obj_files : Nat
  unique_obj_bytes : Nat
deriving DecidableEq

/-- The mutable state of `ObjectFileDB` used by the insertion operation:
`obj_files_by_dgo`, `obj_files_by_name`, `obj_file_order`, `stats`. -/
structure ObjectFileDB where
  obj_files_by_dgo : String → List ObjectFileRecord
  obj_files_by_name : String → List ObjectFileData
  obj_file_order : List String
  stats : ObjectFileDBStats

/-- A freshly constructed database: empty maps, empty order, zero stats. -/
def emptyDB : ObjectFileDB where
  obj_files_by_dgo := fun _ => []
  obj_files_by_name := fun _ => []
  obj_file_order := []
  stats := { total_obj_files := 0, unique_obj_files := 0, unique_obj_bytes := 0 }

/-- The duplicate scan of `add_obj_from_dgo` (lines 163-171): walk the
variant list for the name; at the first entry whose stored byte length equals
`obj_size` and whose record hash equals `hash`, increment its
`reference_count` and return the updated list together with (a copy of) the
matched entry's record.  `none` means no variant matched. -/
def bumpFirstMatch (obj_size hash : Nat) :
    List ObjectFileData → Option (List ObjectFileData × ObjectFileRecord)
  | [] => none
  | e :: es =>
    if e.data.length = obj_size ∧ e.record.hash = hash then
      some ({ e with reference_count := e.reference_count + 1 } :: es, e.record)
    else
      match bumpFirstMatch obj_size hash es with
      | none => none
      | some (es', r) => some (e :: es', r)

/-- `ObjectFileDB::add_obj_from_dgo` (lines 154-188).  `obj_size` in the
source is `obj_data.length` (the caller passes the object's byte count).
Duplicate path: bump the matched entry's reference count and append its
record to the dgo's membership list.  New-variant path: append the name to
`obj_file_order` iff this name's variant list was empty, store a new entry
whose `version` is the prior variant count, append its record to the dgo's
membership list, and bump the unique-entry statistics.  The occurrence
counter `total_obj_files` is incremented on both paths (line 158). -/
def add_obj_from_dgo (crc32 : List Nat → Nat) (db : ObjectFileDB)
    (obj_name : String) (obj_data : List Nat) (dgo_name : String) : ObjectFileDB :=
  let stats1 := { db.stats with total_obj_files := db.stats.total_obj_files + 1 }
  let hash := crc32 obj_data
  match bumpFirstMatch obj_data.length hash (db.obj_files_by_name obj_name) with
  | some (es', r) =>
      { db with
        stats := stats1
        obj_files_by_name := fun k => if k = obj_name then es' else db.obj_files_by_name k
        obj_files_by_dgo := fun k =>
          if k = dgo_name then db.obj_files_by_dgo k ++ [r] else db.obj_files_by_dgo k }
  | none =>
      let r : ObjectFileRecord :=
        { name := obj_name, version := (db.obj_files_by_name obj_name).length, hash := hash }
      let entry : ObjectFileData := { data := obj_data, record := r, reference_count := 1 }
      { obj_files_by_dgo := fun k =>
          if k = dgo_name then db.obj_files_by_dgo k ++ [r] else db.obj_files_by_dgo k
        obj_files_by_name := fun k =>
          if k = obj_name then db.obj_files_by_name obj_name ++ [entry]
          else db.obj_files_by_name k
        obj_file_order :=
          if (db.obj_files_by_name obj_name).isEmpty then db.obj_file_order ++ [obj_name]
          else db.obj_file_order
        stats :=
          { total_obj_files := stats1.total_obj_files
            unique_obj_files := stats1.unique_obj_files + 1
            unique_obj_bytes := stats1.unique_obj_bytes + obj_data.length } }

/-- Unfolding of `add_obj_from_dgo` on the duplicate path: the scan found a
matching variant. -/
theorem add_obj_from_dgo_dup (crc32 : List Nat → Nat) (db : ObjectFileDB)
    (obj_name : String) (obj_data : List Nat) (dgo_name : String)
    (es' : List ObjectFileData) (r : ObjectFileRecord)
    (h : bumpFirstMatch obj_data.length (crc32 obj_data) (db.obj_files_by_name obj_name)
          = some (es', r)) :
    add_obj_from_dgo crc32 db obj_name obj_data dgo_name =
      { db with
        stats := { db.stats with total_obj_files := db.stats.total_obj_files + 1 }
        obj_files_by_name := fun k => if k = obj_name then es' else db.obj_files_by_name k
        obj_files_by_dgo := fun k =>
          if k = dgo_name then db.obj_files_by_dgo k ++ [r] else db.obj_files_by_dgo k } := by
  simp only [add_obj_from_dgo]
  rw [h]

/-- Unfolding of `add_obj_from_dgo` on the new-variant path: the scan found
no matching variant. -/
theorem add_obj_from_dgo_new (crc32 : List Nat → Nat) (db : ObjectFileDB)
    (obj_name : String) (obj_data : List Nat) (dgo_name : String)
    (h : bumpFirstMatch obj_data.length (crc32 obj_data) (db.obj_files_by_name obj_name)
          = none) :
    add_obj_from_dgo crc32 db obj_name obj_data dgo_name =
      { obj_files_by_dgo := fun k =>
          if k = dgo_name then
            db.obj_files_by_dgo k
              ++ [⟨obj_name, (db.obj_files_by_name obj_name).length, crc32 obj_data⟩]
          else db.obj_files_by_dgo k
        obj_files_by_name := fun k =>
          if k = obj_name then
            db.obj_files_by_name obj_name
              ++ [⟨obj_data,
                    ⟨obj_name, (db.obj_files_by_name obj_name).length, crc32 obj_data⟩, 1⟩]
          else db.obj_files_by_name k
        obj_file_order :=
          if (db.obj_files_by_name obj_name).isEmpty then db.obj_file_order ++ [obj_name]
          else db.obj_file_order
        stats :=
          { total_obj_files := db.stats.total_obj_files + 1
            unique_obj_files := db.stats.unique_obj_files + 1
            unique_obj_bytes := db.stats.unique_obj_bytes + obj_data.length } } := by
  simp only [add_obj_from_dgo]
  rw [h]

/-! Injectivity of the decimal rendering used by `to_unique_name`
(`std::to_string` on the C++ side, `Nat.repr` here). -/

/-- Accumulator lemma for the core decimal-digit routine. -/
theorem toDigitsCore_append (b : Nat) :
    ∀ (fuel n : Nat) (ds : List Char),
      Nat.toDigitsCore b fuel n ds = Nat.toDigitsCore b fuel n [] ++ ds := by
  intro fuel
  induction fuel with
  | zero => intro n ds; simp [Nat.toDigitsCore]
  | succ fuel ih =>
    intro n ds
    simp only [Nat.toDigitsCore]
    by_cases h : n / b = 0
    · simp [h]
    · simp only [h, if_false]
      rw [ih (n / b) (Nat.digitChar (n % b) :: ds), ih (n / b) [Nat.digitChar (n % b)]]
      simp

/-- The fuel argument of the digit routine is irrelevant once it exceeds the
number being rendered. -/
theorem toDigitsCore_fuel_irrelevant (b : Nat) (hb : 2 ≤ b) :
    ∀ (n fuel fuel' : Nat), n < fuel → n < fuel' →
      Nat.toDigitsCore b fuel n [] = Nat.toDigitsCore b fuel' n [] := by
  intro n
  induction n using Nat.strong_induction_on with
  | _ n ih =>
    intro fuel fuel' hf hf'
    match fuel, hf with
    | f + 1, hf =>
    match fuel', hf' with
    | f' + 1, hf' =>
    simp only [Nat.toDigitsCore]
    by_cases h : n / b = 0
    · simp [h]
    · simp only [h, if_false]
      rw [toDigitsCore_append b f, toDigitsCore_append b f']
      have hdiv : n / b < n := by
        have hn : 0 < n := by
          rcases Nat.eq_zero_or_pos n with h0 | h0
          · exact absurd (by simp [h0]) h
          · exact h0
        exact Nat.div_lt_self hn (by omega)
      rw [ih (n / b) hdiv f f' (by omega) (by omega)]

/-- One-step unfolding of `Nat.toDigits 10`. -/
theorem toDigits_ten_eq (n : Nat) :
    Nat.toDigits 10 n =
      if n < 10 then [Nat.digitChar n]
      else Nat.toDigits 10 (n / 10) ++ [Nat.digitChar (n % 10)] := by
  by_cases h : n < 10
  · have h0 : n / 10 = 0 := Nat.div_eq_of_lt h
    have hm : n % 10 = n := Nat.mod_eq_of_lt h
    simp [Nat.toDigits, Nat.toDigitsCore, h0, hm, h]
  · have h0 : n / 10 ≠ 0 := fun hc => h (by omega)
    have step : Nat.toDigits 10 n = Nat.toDigitsCore 10 n (n / 10) [Nat.digitChar (n % 10)] := by
      simp [Nat.toDigits, Nat.toDigitsCore, h0]
    rw [if_neg h, step, toDigitsCore_append 10 n]
    have hdiv : n / 10 < n := Nat.div_lt_self (by omega) (by omega)
    rw [toDigitsCore_fuel_irrelevant 10 (by omega) (n / 10) n (n / 10 + 1) hdiv (by omega)]
    rfl

/-- Decimal renderings are nonempty. -/
theorem toDigits_ten_ne_nil (n : Nat) : Nat.toDigits 10 n ≠ [] := by
  rw [toDigits_ten_eq]
  split <;> simp

/-- `Nat.digitChar` is injective below 10. -/
theorem digitChar_inj_lt_ten :
    ∀ a < 10, ∀ b < 10, Nat.digitChar a = Nat.digitChar b → a = b := by decide

/-- `Nat.toDigits 10` is injective. -/
theorem toDigits_ten_injective :
    ∀ a b : Nat, Nat.toDigits 10 a = Nat.toDigits 10 b → a = b := by
  intro a
  induction a using Nat.strong_induction_on with
  | _ a ih =>
    intro b h
    rw [toDigits_ten_eq a, toDigits_ten_eq b] at h
    by_cases ha : a < 10 <;> by_cases hb : b < 10
    · rw [if_pos ha, if_pos hb] at h
      exact digitChar_inj_lt_ten a ha b hb (by simpa using h)
    · rw [if_pos ha, if_neg hb] at h
      have hlen := congrArg List.length h
      have hne := toDigits_ten_ne_nil (b / 10)
      simp at hlen
      cases List.eq_nil_or_concat (Nat.toDigits 10 (b / 10)) with
      | inl hnil => exact absurd hnil hne
      | inr hcc => obtain ⟨l, x, hx⟩ := hcc; rw [hx] at hlen; simp at hlen
    · rw [if_neg ha, if_pos hb] at h
      have hlen := congrArg List.length h
      have hne := toDigits_ten_ne_nil (a / 10)
      simp at hlen
      cases List.eq_nil_or_concat (Nat.toDigits 10 (a / 10)) with
      | inl hnil => exact absurd hnil hne
      | inr hcc => obtain ⟨l, x, hx⟩ := hcc; rw [hx] at hlen; simp at hlen
    · rw [if_neg ha, if_neg hb] at h
      have hp := List.append_inj' h (by simp)
      have hdivlt : a / 10 < a := Nat.div_lt_self (by omega) (by omega)
      have hdiv : a / 10 = b / 10 := ih (a / 10) hdivlt (b / 10) hp.1
      have hmod : a % 10 = b % 10 := by
        have := hp.2
        simp at this
        exact digitChar_inj_lt_ten (a % 10) (Nat.mod_lt _ (by omega)) (b % 10)
          (Nat.mod_lt _ (by omega)) this
      omega

/-- `Nat.repr` (and hence `toString` on `Nat`, i.e. C++ `std::to_string`) is
injective. -/
theorem nat_repr_injective (a b : Nat) (h : Nat.repr a = Nat.repr b) : a = b := by
  apply toDigits_ten_injective
  have h2 := congrArg String.data h
  simpa [Nat.repr, List.asString] using h2

/-- The duplicate scan fails exactly when no stored variant matches on
(length, fingerprint). -/
theorem bumpFirstMatch_eq_none_iff (obj_size hash : Nat) (es : List ObjectFileData) :
    bumpFirstMatch obj_size hash es = none
      ↔ ∀ e ∈ es, ¬(e.data.length = obj_size ∧ e.record.hash = hash) := by
  induction es with
  | nil => simp [bumpFirstMatch]
  | cons e t ih =>
    simp only [bumpFirstMatch]
    by_cases hc : e.data.length = obj_size ∧ e.record.hash = hash
    · rw [if_pos hc]
      simp [hc]
    · rw [if_neg hc]
      cases hbt : bumpFirstMatch obj_size hash t with
      | none =>
        constructor
        · intro _ x hx
          rcases List.mem_cons.mp hx with h1 | h2
          · subst h1; exact hc
          · exact ih.mp hbt x h2
        · intro _; rfl
      | some p => simp only [List.mem_cons]
                  constructor
                  · intro hfalse; cases hfalse
                  · intro hall
                    have : bumpFirstMatch obj_size hash t = none :=
                      ih.mpr fun x hx => hall x (Or.inr hx)
                    rw [this] at hbt
                    cases hbt

/-- A successful duplicate scan preserves the list length: no entry is added
or removed. -/
theorem bumpFirstMatch_length (obj_size hash : Nat) :
    ∀ (es es' : List ObjectFileData) (r : ObjectFileRecord),
      bumpFirstMatch obj_size hash es = some (es', r) → es'.length = es.length := by
  intro es
  induction es with
  | nil => intro es' r h; simp [bumpFirstMatch] at h
  | cons e t ih =>
    intro es' r h
    simp only [bumpFirstMatch] at h
    by_cases hc : e.data.length = obj_size ∧ e.record.hash = hash
    · rw [if_pos hc] at h
      simp only [Option.some.injEq, Prod.mk.injEq] at h
      rw [← h.1]
      simp
    · rw [if_neg hc] at h
      cases hbt : bumpFirstMatch obj_size hash t with
      | none => rw [hbt] at h; cases h
      | some p =>
        rw [hbt] at h
        simp only [Option.some.injEq, Prod.mk.injEq] at h
        rw [← h.1]
        simp [ih p.1 p.2 (by rw [hbt])]

/-- A successful duplicate scan changes no entry's `record` or `data`: only a
reference count is bumped. -/
theorem bumpFirstMatch_get? (obj_size hash : Nat) :
    ∀ (es es' : List ObjectFileData) (r : ObjectFileRecord),
      bumpFirstMatch obj_size hash es = some (es', r) →
      ∀ i : Nat,
        (es'.get? i).map ObjectFileData.record = (es.get? i).map ObjectFileData.record
        ∧ (es'.get? i).map ObjectFileData.data = (es.get? i).map ObjectFileData.data := by
  intro es
  induction es with
  | nil => intro es' r h; simp [bumpFirstMatch] at h
  | cons e t ih =>
    intro es' r h i
    simp only [bumpFirstMatch] at h
    by_cases hc : e.data.length = obj_size ∧ e.record.hash = hash
    · rw [if_pos hc] at h
      simp only [Option.some.injEq, Prod.mk.injEq] at h
      obtain ⟨hes', -⟩ := h
      subst hes'
      cases i with
      | zero => exact ⟨rfl, rfl⟩
      | succ j => exact ⟨rfl, rfl⟩
    · rw [if_neg hc] at h
      cases hbt : bumpFirstMatch obj_size hash t with
      | none => rw [hbt] at h; cases h
      | some p =>
        rw [hbt] at h
        simp only [Option.some.injEq, Prod.mk.injEq] at h
        obtain ⟨h1, -⟩ := h
        subst h1
        cases i with
        | zero => exact ⟨rfl, rfl⟩
        | succ j => exact ih p.1 p.2 (by rw [hbt]) j

/-- One insertion request: the arguments of one `add_obj_from_dgo` call. -/
structure Insertion where
  obj_name : String
  obj_data : List Nat
  dgo_name : String

/-- Fold a sequence of insertions over the empty database, in order: the
state reached after the constructor has processed these objects. -/
def buildDB (crc32 : List Nat → Nat) (l : List Insertion) : ObjectFileDB :=
  l.foldl (fun db i => add_obj_from_dgo crc32 db i.obj_name i.obj_data i.dgo_name) emptyDB

/-- The new-variant path appends exactly one entry (with version = prior
variant count, reference count 1) to the inserted name's variant list. -/
theorem add_obj_by_name_self_new (crc32 : List Nat → Nat) (db : ObjectFileDB)
    (n : String) (c : List Nat) (g : String)
    (hb : bumpFirstMatch c.length (crc32 c) (db.obj_files_by_name n) = none) :
    (add_obj_from_dgo crc32 db n c g).obj_files_by_name n
      = db.obj_files_by_name n
          ++ [⟨c, ⟨n, (db.obj_files_by_name n).length, crc32 c⟩, 1⟩] := by
  rw [add_obj_from_dgo_new crc32 db n c g hb]
  simp

/-- The duplicate path replaces the matched name's variant list with the
scan's output list. -/
theorem add_obj_by_name_self_dup (crc32 : List Nat → Nat) (db : ObjectFileDB)
    (n : String) (c : List Nat) (g : String)
    (es' : List ObjectFileData) (r : ObjectFileRecord)
    (hb : bumpFirstMatch c.length (crc32 c) (db.obj_files_by_name n) = some (es', r)) :
    (add_obj_from_dgo crc32 db n c g).obj_files_by_name n = es' := by
  rw [add_obj_from_dgo_dup crc32 db n c g es' r hb]
  simp

/-- Insertion under name `n` leaves every other name's variant list
untouched. -/
theorem add_obj_by_name_other (crc32 : List Nat → Nat) (db : ObjectFileDB)
    (n : String) (c : List Nat) (g : String) (m : String) (hm : m ≠ n) :
    (add_obj_from_dgo crc32 db n c g).obj_files_by_name m
      = db.obj_files_by_name m := by
  cases hb : bumpFirstMatch c.length (crc32 c) (db.obj_files_by_name n) with
  | none => rw [add_obj_from_dgo_new crc32 db n c g hb]; simp [hm]
  | some p => rw [add_obj_from_dgo_dup crc32 db n c g p.1 p.2 (by rw [hb])]; simp [hm]

/-- Insertion intended for archive `g` appends exactly one record to `g`'s
membership list and leaves every other archive's membership list untouched. -/
theorem add_obj_by_dgo (crc32 : List Nat → Nat) (db : ObjectFileDB)
    (n : String) (c : List Nat) (g : String) :
    (∃ r : ObjectFileRecord,
      (add_obj_from_dgo crc32 db n c g).obj_files_by_dgo g = db.obj_files_by_dgo g ++ [r])
    ∧ ∀ a : String, a ≠ g →
      (add_obj_from_dgo crc32 db n c g).obj_files_by_dgo a = db.obj_files_by_dgo a := by
  cases hb : bumpFirstMatch c.length (crc32 c) (db.obj_files_by_name n) with
  | none =>
    rw [add_obj_from_dgo_new crc32 db n c g hb]
    constructor
    · exact ⟨⟨n, (db.obj_files_by_name n).length, crc32 c⟩, by simp⟩
    · intro a ha; simp [ha]
  | some p =>
    rw [add_obj_from_dgo_dup crc32 db n c g p.1 p.2 (by rw [hb])]
    constructor
    · exact ⟨p.2, by simp⟩
    · intro a ha; simp [ha]

/-- Any insertion leaves every previously stored entry's `record` and `data`
in place (at the same index of the same name's variant list): only reference
counts and newly appended entries differ. -/
theorem add_obj_preserves_entries (crc32 : List Nat → Nat) (db : ObjectFileDB)
    (n : String) (c : List Nat) (g : String) (m : String)
    (i : Nat) (h : i < (db.obj_files_by_name m).length) :
    (((add_obj_from_dgo crc32 db n c g).obj_files_by_name m).get? i).map
        ObjectFileData.record
      = ((db.obj_files_by_name m).get? i).map ObjectFileData.record
    ∧ (((add_obj_from_dgo crc32 db n c g).obj_files_by_name m).get? i).map
        ObjectFileData.data
      = ((db.obj_files_by_name m).get? i).map ObjectFileData.data := by
  by_cases hm : m = n
  · subst hm
    cases hb : bumpFirstMatch c.length (crc32 c) (db.obj_files_by_name m) with
    | none =>
      rw [add_obj_by_name_self_new crc32 db m c g hb]
      rw [List.get?_append h]
      exact ⟨rfl, rfl⟩
    | some p =>
      rw [add_obj_by_name_self_dup crc32 db m c g p.1 p.2 (by rw [hb])]
      exact bumpFirstMatch_get? c.length (crc32 c) (db.obj_files_by_name m) p.1 p.2
        (by rw [hb]) i
  · rw [add_obj_by_name_other crc32 db n c g m hm]
    exact ⟨rfl, rfl⟩

/-- `toString` on `Nat` (the model of `std::to_string`) is `Nat.repr`. -/
theorem nat_toString_eq_repr (n : Nat) : toString n = Nat.repr n := rfl

/-- Unique identity strings of records with the same name but different
versions differ. -/
theorem to_unique_name_ne_of_version_ne (nm : String) (v1 v2 h1 h2 : Nat)
    (hne : v1 ≠ v2) :
    ObjectFileRecord.to_unique_name ⟨nm, v1, h1⟩
      ≠ ObjectFileRecord.to_unique_name ⟨nm, v2, h2⟩ := by
  intro heq
  apply hne
  apply nat_repr_injective
  simp only [ObjectFileRecord.to_unique_name, nat_toString_eq_repr] at heq
  have hdata := congrArg String.data heq
  simp only [String.data_append, List.append_assoc] at hdata
  have h3 := List.append_cancel_left (List.append_cancel_left hdata)
  exact String.ext h3

/-- C1: Deduplication identity.  Inserting, into a fresh database, content
`c1` under name `n` from archive `dgoA` and then content `c2` under the same
name from a different archive `dgoB`, where `c2` agrees with `c1` in byte
length and crc32 fingerprint only (no byte-for-byte equality is required,
because the duplicate scan compares only length and fingerprint), yields
exactly one stored entry for `n`, with version 0 and reference_count 2, and
both archives' membership lists reference the same `(n, version 0)` record. -/
theorem C1_dedup_identity (crc32 : List Nat → Nat) (n : String) (c1 c2 : List Nat)
    (dgoA dgoB : String)
    (hlen : c2.length = c1.length) (hh : crc32 c2 = crc32 c1) (hd : dgoA ≠ dgoB) :
    (add_obj_from_dgo crc32 (add_obj_from_dgo crc32 emptyDB n c1 dgoA) n c2 dgoB).obj_files_by_name
        n = [⟨c1, ⟨n, 0, crc32 c1⟩, 2⟩]
    ∧ (add_obj_from_dgo crc32 (add_obj_from_dgo crc32 emptyDB n c1 dgoA) n c2
        dgoB).obj_files_by_dgo dgoA = [⟨n, 0, crc32 c1⟩]
    ∧ (add_obj_from_dgo crc32 (add_obj_from_dgo crc32 emptyDB n c1 dgoA) n c2
        dgoB).obj_files_by_dgo dgoB = [⟨n, 0, crc32 c1⟩] := by
  refine ⟨?_, ?_, ?_⟩ <;>
    simp [add_obj_from_dgo, emptyDB, bumpFirstMatch, hlen, hh, hd, Ne.symm hd]

/-- Closed instance of C1: with the degenerate fingerprint `fun _ => 0`,
inserting `[1,2]` then `[3,4]` (distinct bytes, equal length and
fingerprint) under `"foo"` from archives `"A"` and `"B"` is treated as a
duplicate — demonstrating that no full byte comparison happens. -/
theorem C1_dedup_identity_witness :
    (add_obj_from_dgo (fun _ => 0) (add_obj_from_dgo (fun _ => 0) emptyDB "foo" [1, 2] "A")
        "foo" [3, 4] "B").obj_files_by_name "foo" = [⟨[1, 2], ⟨"foo", 0, 0⟩, 2⟩]
    ∧ (add_obj_from_dgo (fun _ => 0) (add_obj_from_dgo (fun _ => 0) emptyDB "foo" [1, 2] "A")
        "foo" [3, 4] "B").obj_files_by_dgo "A" = [⟨"foo", 0, 0⟩]
    ∧ (add_obj_from_dgo (fun _ => 0) (add_obj_from_dgo (fun _ => 0) emptyDB "foo" [1, 2] "A")
        "foo" [3, 4] "B").obj_files_by_dgo "B" = [⟨"foo", 0, 0⟩] :=
  C1_dedup_identity (fun _ => 0) "foo" [1, 2] [3, 4] "A" "B" rfl rfl (by decide)

/-- C2: Versioning.  (1) When no stored variant of `n` matches the inserted
content on (length, fingerprint), a new entry is appended whose `version` is
the number of existing variants of `n` at insertion time.  (2) The version
(indeed the whole record) of an already-stored entry never changes under any
later insertion.  (3) Unique identity strings (`name + "-v" + version`) of
two variants of the same name with different versions differ. -/
theorem C2_versioning :
    (∀ (crc32 : List Nat → Nat) (db : ObjectFileDB) (n : String) (c : List Nat) (g : String),
      (∀ e ∈ db.obj_files_by_name n, ¬(e.data.length = c.length ∧ e.record.hash = crc32 c)) →
      (add_obj_from_dgo crc32 db n c g).obj_files_by_name n
        = db.obj_files_by_name n
            ++ [⟨c, ⟨n, (db.obj_files_by_name n).length, crc32 c⟩, 1⟩])
    ∧ (∀ (crc32 : List Nat → Nat) (db : ObjectFileDB) (n : String) (c : List Nat)
        (g m : String) (i : Nat), i < (db.obj_files_by_name m).length →
        (((add_obj_from_dgo crc32 db n c g).obj_files_by_name m).get? i).map
            ObjectFileData.record
          = ((db.obj_files_by_name m).get? i).map ObjectFileData.record)
    ∧ (∀ (nm : String) (v1 v2 h1 h2 : Nat), v1 ≠ v2 →
        ObjectFileRecord.to_unique_name ⟨nm, v1, h1⟩
          ≠ ObjectFileRecord.to_unique_name ⟨nm, v2, h2⟩) := by
  refine ⟨?_, ?_, ?_⟩
  · intro crc32 db n c g hnone
    exact add_obj_by_name_self_new crc32 db n c g
      ((bumpFirstMatch_eq_none_iff c.length (crc32 c) _).mpr hnone)
  · intro crc32 db n c g m i hi
    exact (add_obj_preserves_entries crc32 db n c g m i hi).1
  · exact to_unique_name_ne_of_version_ne

/-- Closed instance of C2: the second distinct variant of `"foo"` gets
version 1 = the count of existing variants, the first variant's record
survives the second insertion unchanged, and `foo-v0` and `foo-v1` are
distinct identity strings. -/
theorem C2_versioning_witness :
    (add_obj_from_dgo (fun l => l.length) (add_obj_from_dgo (fun l => l.length) emptyDB
        "foo" [1] "A") "foo" [2, 3] "B").obj_files_by_name "foo"
      = (add_obj_from_dgo (fun l => l.length) emptyDB "foo" [1] "A").obj_files_by_name "foo"
          ++ [⟨[2, 3], ⟨"foo",
                ((add_obj_from_dgo (fun l => l.length) emptyDB "foo" [1] "A").obj_files_by_name
                  "foo").length, (fun l : List Nat => l.length) [2, 3]⟩, 1⟩]
    ∧ ((((add_obj_from_dgo (fun l => l.length) (add_obj_from_dgo (fun l => l.length) emptyDB
          "foo" [1] "A") "foo" [2, 3] "B").obj_files_by_name "foo").get? 0).map
            ObjectFileData.record
        = (((add_obj_from_dgo (fun l => l.length) emptyDB "foo" [1] "A").obj_files_by_name
            "foo").get? 0).map ObjectFileData.record)
    ∧ ObjectFileRecord.to_unique_name ⟨"foo", 0, 1⟩
        ≠ ObjectFileRecord.to_unique_name ⟨"foo", 1, 2⟩ :=
  ⟨C2_versioning.1 (fun l => l.length) (add_obj_from_dgo (fun l => l.length) emptyDB "foo" [1]
      "A") "foo" [2, 3] "B" (by decide),
   C2_versioning.2.1 (fun l => l.length) (add_obj_from_dgo (fun l => l.length) emptyDB "foo"
      [1] "A") "foo" [2, 3] "B" "foo" 0 (by decide),
   C2_versioning.2.2 "foo" 0 1 1 2 (by decide)⟩

/-- Spec-side definition: the strictly first-seen order of a list of names
(each name kept at its first occurrence only). -/
def firstSeen (l : List String) : List String :=
  l.foldl (fun acc x => if x ∈ acc then acc else acc ++ [x]) []

/-- An insertion under an already-seen name never touches the global order. -/
theorem add_obj_order_not_first (crc32 : List Nat → Nat) (db : ObjectFileDB)
    (n : String) (c : List Nat) (g : String) (h : db.obj_files_by_name n ≠ []) :
    (add_obj_from_dgo crc32 db n c g).obj_file_order = db.obj_file_order := by
  cases hb : bumpFirstMatch c.length (crc32 c) (db.obj_files_by_name n) with
  | none =>
    rw [add_obj_from_dgo_new crc32 db n c g hb]
    simp only []
    rw [if_neg (by simpa [List.isEmpty_iff] using h)]
  | some p => rw [add_obj_from_dgo_dup crc32 db n c g p.1 p.2 (by rw [hb])]

/-- An insertion under a never-seen name appends that name to the global
order. -/
theorem add_obj_order_first (crc32 : List Nat → Nat) (db : ObjectFileDB)
    (n : String) (c : List Nat) (g : String) (h : db.obj_files_by_name n = []) :
    (add_obj_from_dgo crc32 db n c g).obj_file_order = db.obj_file_order ++ [n] := by
  have hb : bumpFirstMatch c.length (crc32 c) (db.obj_files_by_name n) = none := by
    rw [h]; rfl
  rw [add_obj_from_dgo_new crc32 db n c g hb]
  simp [h]

/-- A successful duplicate scan never empties the variant list. -/
theorem bumpFirstMatch_ne_nil (obj_size hash : Nat) (es es' : List ObjectFileData)
    (r : ObjectFileRecord)
    (h : bumpFirstMatch obj_size hash es = some (es', r)) : es' ≠ [] := by
  cases es with
  | nil => simp [bumpFirstMatch] at h
  | cons e t =>
    intro hnil
    have := bumpFirstMatch_length obj_size hash (e :: t) es' r h
    rw [hnil] at this
    simp at this

/-- The membership invariant between the global order and the per-name map:
a name is in the global order iff its variant list is nonempty.  Preserved by
every insertion. -/
theorem add_obj_order_inv (crc32 : List Nat → Nat) (db : ObjectFileDB)
    (n : String) (c : List Nat) (g : String)
    (hinv : ∀ nm : String, nm ∈ db.obj_file_order ↔ db.obj_files_by_name nm ≠ []) :
    ∀ nm : String, nm ∈ (add_obj_from_dgo crc32 db n c g).obj_file_order
      ↔ (add_obj_from_dgo crc32 db n c g).obj_files_by_name nm ≠ [] := by
  intro nm
  by_cases hmn : nm = n
  · subst hmn
    by_cases hn : db.obj_files_by_name nm = []
    · rw [add_obj_order_first crc32 db nm c g hn,
        add_obj_by_name_self_new crc32 db nm c g (by rw [hn]; rfl)]
      simp
    · rw [add_obj_order_not_first crc32 db nm c g hn]
      cases hb : bumpFirstMatch c.length (crc32 c) (db.obj_files_by_name nm) with
      | none =>
        rw [add_obj_by_name_self_new crc32 db nm c g hb]
        simp [(hinv nm).mpr hn]
      | some p =>
        rw [add_obj_by_name_self_dup crc32 db nm c g p.1 p.2 (by rw [hb])]
        simp only [(hinv nm).mpr hn, true_iff]
        exact bumpFirstMatch_ne_nil c.length (crc32 c) (db.obj_files_by_name nm) p.1 p.2
          (by rw [hb])
  · rw [add_obj_by_name_other crc32 db n c g nm hmn]
    by_cases hn : db.obj_files_by_name n = []
    · rw [add_obj_order_first crc32 db n c g hn]
      simp only [List.mem_append, List.mem_singleton]
      constructor
      · intro hmem
        rcases hmem with hmem | hmem
        · exact (hinv nm).mp hmem
        · exact absurd hmem hmn
      · intro hne
        exact Or.inl ((hinv nm).mpr hne)
    · rw [add_obj_order_not_first crc32 db n c g hn]
      exact hinv nm

/-- Folding insertions starting from any state satisfying the membership
invariant extends the global order exactly by the first-seen fold of the
inserted names. -/
theorem buildDB_order_aux (crc32 : List Nat → Nat) :
    ∀ (l : List Insertion) (db : ObjectFileDB),
      (∀ nm, nm ∈ db.obj_file_order ↔ db.obj_files_by_name nm ≠ []) →
      (l.foldl (fun d i => add_obj_from_dgo crc32 d i.obj_name i.obj_data i.dgo_name)
          db).obj_file_order
        = (l.map Insertion.obj_name).foldl
            (fun acc x => if x ∈ acc then acc else acc ++ [x]) db.obj_file_order := by
  intro l
  induction l with
  | nil => intro db _; rfl
  | cons i t ih =>
    intro db hinv
    simp only [List.foldl_cons, List.map_cons]
    rw [ih _ (add_obj_order_inv crc32 db i.obj_name i.obj_data i.dgo_name hinv)]
    congr 1
    by_cases hn : db.obj_files_by_name i.obj_name = []
    · rw [add_obj_order_first crc32 db _ _ _ hn,
        if_neg (fun hmem => ((hinv i.obj_name).mp hmem) hn)]
    · rw [add_obj_order_not_first crc32 db _ _ _ hn, if_pos ((hinv i.obj_name).mpr hn)]

/-- The first-seen fold preserves `Nodup` of its accumulator. -/
theorem firstSeen_fold_nodup :
    ∀ (l : List String) (acc : List String), acc.Nodup →
      (l.foldl (fun a x => if x ∈ a then a else a ++ [x]) acc).Nodup := by
  intro l
  induction l with
  | nil => intro acc h; exact h
  | cons x t ih =>
    intro acc h
    simp only [List.foldl_cons]
    by_cases hx : x ∈ acc
    · rw [if_pos hx]; exact ih acc h
    · rw [if_neg hx]
      exact ih (acc ++ [x]) (by simp [List.nodup_append, h, hx])

/-- C3: Global insertion order.  For every sequence of insertions the global
order equals the strictly first-seen order of the inserted names — a
function of the name sequence alone (independent of the fingerprint
function, the contents, and the archives; no hash-map iteration order exists
in the model because the source never iterates the maps during insertion) —
with no name repeated; a name is appended exactly when its variant list was
empty (first variant) and never on a duplicate or later-variant insertion. -/
theorem C3_global_insertion_order :
    (∀ (crc32 : List Nat → Nat) (l : List Insertion),
      (buildDB crc32 l).obj_file_order = firstSeen (l.map Insertion.obj_name))
    ∧ (∀ (crc32 : List Nat → Nat) (l : List Insertion),
        (buildDB crc32 l).obj_file_order.Nodup)
    ∧ (∀ (crc32 : List Nat → Nat) (db : ObjectFileDB) (n : String) (c : List Nat) (g : String),
        db.obj_files_by_name n ≠ [] →
        (add_obj_from_dgo crc32 db n c g).obj_file_order = db.obj_file_order)
    ∧ (∀ (crc32 : List Nat → Nat) (db : ObjectFileDB) (n : String) (c : List Nat) (g : String),
        db.obj_files_by_name n = [] →
        (add_obj_from_dgo crc32 db n c g).obj_file_order = db.obj_file_order ++ [n]) := by
  have hmain : ∀ (crc32 : List Nat → Nat) (l : List Insertion),
      (buildDB crc32 l).obj_file_order = firstSeen (l.map Insertion.obj_name) := by
    intro crc32 l
    exact buildDB_order_aux crc32 l emptyDB (by intro nm; simp [emptyDB])
  refine ⟨hmain, ?_, add_obj_order_not_first, add_obj_order_first⟩
  intro crc32 l
  rw [hmain crc32 l]
  exact firstSeen_fold_nodup _ [] List.nodup_nil

/-- Closed instance of C3: a duplicate insertion of `"a"` leaves the order
unchanged, while the first insertion of `"b"` appends it. -/
theorem C3_global_insertion_order_witness :
    (add_obj_from_dgo (fun _ => 0) (add_obj_from_dgo (fun _ => 0) emptyDB "a" [1] "A")
        "a" [2] "B").obj_file_order
      = (add_obj_from_dgo (fun _ => 0) emptyDB "a" [1] "A").obj_file_order
    ∧ (add_obj_from_dgo (fun _ => 0) emptyDB "b" [1] "B").obj_file_order
      = emptyDB.obj_file_order ++ ["b"] :=
  ⟨C3_global_insertion_order.2.2.1 (fun _ => 0) _ "a" [2] "B" (by decide),
   C3_global_insertion_order.2.2.2 (fun _ => 0) emptyDB "b" [1] "B" (by decide)⟩

/-- The number of stored entries: summing each recorded name's variant-list
length over the global order (which, by the membership invariant and its
`Nodup` property, enumerates every name with stored entries exactly once). -/
def storedEntryCount (db : ObjectFileDB) : Nat :=
  (db.obj_file_order.map (fun nm => (db.obj_files_by_name nm).length)).sum

/-- The total byte size of all distinct stored entries, enumerated the same
way. -/
def storedEntryBytes (db : ObjectFileDB) : Nat :=
  (db.obj_file_order.map
    (fun nm => ((db.obj_files_by_name nm).map (fun e => e.data.length)).sum)).sum

/-- A successful duplicate scan does not change any entry's byte length. -/
theorem bumpFirstMatch_map_data (obj_size hash : Nat) :
    ∀ (es es' : List ObjectFileData) (r : ObjectFileRecord),
      bumpFirstMatch obj_size hash es = some (es', r) →
      es'.map (fun e => e.data.length) = es.map (fun e => e.data.length) := by
  intro es
  induction es with
  | nil => intro es' r h; simp [bumpFirstMatch] at h
  | cons e t ih =>
    intro es' r h
    simp only [bumpFirstMatch] at h
    by_cases hc : e.data.length = obj_size ∧ e.record.hash = hash
    · rw [if_pos hc] at h
      simp only [Option.some.injEq, Prod.mk.injEq] at h
      obtain ⟨hes', -⟩ := h
      subst hes'
      simp
    · rw [if_neg hc] at h
      cases hbt : bumpFirstMatch obj_size hash t with
      | none => rw [hbt] at h; cases h
      | some p =>
        rw [hbt] at h
        simp only [Option.some.injEq, Prod.mk.injEq] at h
        obtain ⟨h1, -⟩ := h
        subst h1
        simp [ih p.1 p.2 (by rw [hbt])]

/-- Summing a pointwise-updated function over a duplicate-free list that
contains the updated point exactly adds the increment. -/
theorem sum_map_update (f f' : String → Nat) (n : String) (d : Nat)
    (hn : f' n = f n + d) (ho : ∀ m : String, m ≠ n → f' m = f m) :
    ∀ ord : List String, n ∈ ord → ord.Nodup →
      (ord.map f').sum = (ord.map f).sum + d := by
  intro ord
  induction ord with
  | nil => intro h; cases h
  | cons x t ih =>
    intro hmem hnd
    rcases List.mem_cons.mp hmem with hx | hx
    · subst hx
      have ht : t.map f' = t.map f :=
        List.map_congr_left fun a ha =>
          ho a (fun he => (List.nodup_cons.mp hnd).1 (he ▸ ha))
      simp only [List.map_cons, List.sum_cons, hn, ht]
      omega
    · have hxn : x ≠ n := fun he => (List.nodup_cons.mp hnd).1 (he ▸ hx)
      have := ih hx (List.nodup_cons.mp hnd).2
      simp only [List.map_cons, List.sum_cons, ho x hxn, this]
      omega

/-- The occurrence counter is incremented by every insertion, on both
paths. -/
theorem add_obj_stats_total (crc32 : List Nat → Nat) (db : ObjectFileDB)
    (n : String) (c : List Nat) (g : String) :
    (add_obj_from_dgo crc32 db n c g).stats.total_obj_files
      = db.stats.total_obj_files + 1 := by
  cases hb : bumpFirstMatch c.length (crc32 c) (db.obj_files_by_name n) with
  | none => rw [add_obj_from_dgo_new crc32 db n c g hb]
  | some p => rw [add_obj_from_dgo_dup crc32 db n c g p.1 p.2 (by rw [hb])]

/-- The distinct-entry counters are untouched on the duplicate path. -/
theorem add_obj_stats_dup (crc32 : List Nat → Nat) (db : ObjectFileDB)
    (n : String) (c : List Nat) (g : String) (es' : List ObjectFileData)
    (r : ObjectFileRecord)
    (hb : bumpFirstMatch c.length (crc32 c) (db.obj_files_by_name n) = some (es', r)) :
    (add_obj_from_dgo crc32 db n c g).stats.unique_obj_files = db.stats.unique_obj_files
    ∧ (add_obj_from_dgo crc32 db n c g).stats.unique_obj_bytes
        = db.stats.unique_obj_bytes := by
  rw [add_obj_from_dgo_dup crc32 db n c g es' r hb]
  exact ⟨rfl, rfl⟩

/-- The distinct-entry counters are bumped on the new-variant path: one more
entry, `c.length` more distinct bytes. -/
theorem add_obj_stats_new (crc32 : List Nat → Nat) (db : ObjectFileDB)
    (n : String) (c : List Nat) (g : String)
    (hb : bumpFirstMatch c.length (crc32 c) (db.obj_files_by_name n) = none) :
    (add_obj_from_dgo crc32 db n c g).stats.unique_obj_files
        = db.stats.unique_obj_files + 1
    ∧ (add_obj_from_dgo crc32 db n c g).stats.unique_obj_bytes
        = db.stats.unique_obj_bytes + c.length := by
  rw [add_obj_from_dgo_new crc32 db n c g hb]
  exact ⟨rfl, rfl⟩

/-- The bookkeeping invariant tying the statistics counters to the stored
entries. -/
structure StatsInv (db : ObjectFileDB) : Prop where
  mem : ∀ nm : String, nm ∈ db.obj_file_order ↔ db.obj_files_by_name nm ≠ []
  nodup : db.obj_file_order.Nodup
  count : db.stats.unique_obj_files = storedEntryCount db
  bytes : db.stats.unique_obj_bytes = storedEntryBytes db
  le : db.stats.unique_obj_files ≤ db.stats.total_obj_files

/-- Every insertion preserves the statistics invariant. -/
theorem statsInv_add (crc32 : List Nat → Nat) (db : ObjectFileDB)
    (n : String) (c : List Nat) (g : String) (h : StatsInv db) :
    StatsInv (add_obj_from_dgo crc32 db n c g) := by
  have hmem := add_obj_order_inv crc32 db n c g h.mem
  have htotal := add_obj_stats_total crc32 db n c g
  cases hb : bumpFirstMatch c.length (crc32 c) (db.obj_files_by_name n) with
  | some p =>
    have hne : db.obj_files_by_name n ≠ [] := by
      intro h0
      rw [h0] at hb
      simp [bumpFirstMatch] at hb
    have horder := add_obj_order_not_first crc32 db n c g hne
    have hname := add_obj_by_name_self_dup crc32 db n c g p.1 p.2 (by rw [hb])
    have hlen := bumpFirstMatch_length c.length (crc32 c) _ p.1 p.2 (by rw [hb])
    have hdata := bumpFirstMatch_map_data c.length (crc32 c) _ p.1 p.2 (by rw [hb])
    have hstats := add_obj_stats_dup crc32 db n c g p.1 p.2 (by rw [hb])
    refine ⟨hmem, ?_, ?_, ?_, ?_⟩
    · rw [horder]; exact h.nodup
    · rw [hstats.1, h.count]
      unfold storedEntryCount
      rw [horder]
      congr 1
      apply List.map_congr_left
      intro a _
      by_cases han : a = n
      · subst han; rw [hname, hlen]
      · rw [add_obj_by_name_other crc32 db n c g a han]
    · rw [hstats.2, h.bytes]
      unfold storedEntryBytes
      rw [horder]
      congr 1
      apply List.map_congr_left
      intro a _
      by_cases han : a = n
      · subst han; rw [hname, hdata]
      · rw [add_obj_by_name_other crc32 db n c g a han]
    · rw [hstats.1, htotal]
      exact Nat.le_succ_of_le h.le
  | none =>
    have hname := add_obj_by_name_self_new crc32 db n c g hb
    have hstats := add_obj_stats_new crc32 db n c g hb
    by_cases hn : db.obj_files_by_name n = []
    · have horder := add_obj_order_first crc32 db n c g hn
      have hnmem : n ∉ db.obj_file_order := fun hm => (h.mem n).mp hm hn
      refine ⟨hmem, ?_, ?_, ?_, ?_⟩
      · rw [horder]
        simp [List.nodup_append, h.nodup, hnmem]
      · rw [hstats.1, h.count]
        unfold storedEntryCount
        rw [horder, List.map_append, List.sum_append]
        have h1 : db.obj_file_order.map
              (fun nm => ((add_obj_from_dgo crc32 db n c g).obj_files_by_name nm).length)
            = db.obj_file_order.map (fun nm => (db.obj_files_by_name nm).length) :=
          List.map_congr_left fun a ha => by
            rw [add_obj_by_name_other crc32 db n c g a (fun he => hnmem (he ▸ ha))]
        have h2 : ((add_obj_from_dgo crc32 db n c g).obj_files_by_name n).length = 1 := by
          rw [hname, hn]
          rfl
        simp [h1, h2]
      · rw [hstats.2, h.bytes]
        unfold storedEntryBytes
        rw [horder, List.map_append, List.sum_append]
        have h1 : db.obj_file_order.map (fun nm =>
              (((add_obj_from_dgo crc32 db n c g).obj_files_by_name nm).map
                (fun e => e.data.length)).sum)
            = db.obj_file_order.map
                (fun nm => ((db.obj_files_by_name nm).map (fun e => e.data.length)).sum) :=
          List.map_congr_left fun a ha => by
            rw [add_obj_by_name_other crc32 db n c g a (fun he => hnmem (he ▸ ha))]
        have h2 : (((add_obj_from_dgo crc32 db n c g).obj_files_by_name n).map
              (fun e => e.data.length)).sum = c.length := by
          rw [hname, hn]
          simp
        simp [h1, h2]
      · rw [hstats.1, htotal]
        exact Nat.succ_le_succ h.le
    · have horder := add_obj_order_not_first crc32 db n c g hn
      have hnm : n ∈ db.obj_file_order := (h.mem n).mpr hn
      refine ⟨hmem, ?_, ?_, ?_, ?_⟩
      · rw [horder]; exact h.nodup
      · rw [hstats.1, h.count]
        unfold storedEntryCount
        rw [horder]
        exact (sum_map_update (fun nm => (db.obj_files_by_name nm).length)
          (fun nm => ((add_obj_from_dgo crc32 db n c g).obj_files_by_name nm).length) n 1
          (by simp [hname])
          (fun m hm => by simp [add_obj_by_name_other crc32 db n c g m hm])
          db.obj_file_order hnm h.nodup).symm
      · rw [hstats.2, h.bytes]
        unfold storedEntryBytes
        rw [horder]
        exact (sum_map_update
          (fun nm => ((db.obj_files_by_name nm).map (fun e => e.data.length)).sum)
          (fun nm => (((add_obj_from_dgo crc32 db n c g).obj_files_by_name nm).map
            (fun e => e.data.length)).sum) n c.length
          (by simp [hname])
          (fun m hm => by simp [add_obj_by_name_other crc32 db n c g m hm])
          db.obj_file_order hnm h.nodup).symm
      · rw [hstats.1, htotal]
        exact Nat.succ_le_succ h.le

/-- Folding insertions preserves the invariant and adds the insertion count
to the occurrence counter. -/
theorem statsInv_fold (crc32 : List Nat → Nat) :
    ∀ (l : List Insertion) (db : ObjectFileDB), StatsInv db →
      StatsInv (l.foldl (fun d i => add_obj_from_dgo crc32 d i.obj_name i.obj_data i.dgo_name)
          db)
      ∧ (l.foldl (fun d i => add_obj_from_dgo crc32 d i.obj_name i.obj_data i.dgo_name)
          db).stats.total_obj_files = db.stats.total_obj_files + l.length := by
  intro l
  induction l with
  | nil => intro db h; exact ⟨h, rfl⟩
  | cons i t ih =>
    intro db h
    simp only [List.foldl_cons, List.length_cons]
    have hstep := statsInv_add crc32 db i.obj_name i.obj_data i.dgo_name h
    have htotal := add_obj_stats_total crc32 db i.obj_name i.obj_data i.dgo_name
    obtain ⟨h1, h2⟩ := ih _ hstep
    refine ⟨h1, ?_⟩
    rw [h2, htotal]
    omega

/-- The empty database satisfies the statistics invariant. -/
theorem statsInv_empty : StatsInv emptyDB := by
  refine ⟨?_, ?_, ?_, ?_, ?_⟩ <;> simp [emptyDB, storedEntryCount, storedEntryBytes]

/-- C4: Statistics consistency.  After any sequence of insertions the
occurrence counter equals the number of insert calls, the distinct-entry
counter equals the number of stored entries (and is at most the occurrence
counter), and the distinct-byte counter equals the sum of the stored
entries' byte lengths; per step, the occurrence counter is incremented on
every insertion and the distinct counters only on the new-variant path. -/
theorem C4_statistics :
    (∀ (crc32 : List Nat → Nat) (l : List Insertion),
      (buildDB crc32 l).stats.total_obj_files = l.length
      ∧ (buildDB crc32 l).stats.unique_obj_files = storedEntryCount (buildDB crc32 l)
      ∧ (buildDB crc32 l).stats.unique_obj_files ≤ (buildDB crc32 l).stats.total_obj_files
      ∧ (buildDB crc32 l).stats.unique_obj_bytes = storedEntryBytes (buildDB crc32 l))
    ∧ (∀ (crc32 : List Nat → Nat) (db : ObjectFileDB) (n : String) (c : List Nat) (g : String),
        (add_obj_from_dgo crc32 db n c g).stats.total_obj_files
          = db.stats.total_obj_files + 1)
    ∧ (∀ (crc32 : List Nat → Nat) (db : ObjectFileDB) (n : String) (c : List Nat) (g : String)
        (es' : List ObjectFileData) (r : ObjectFileRecord),
        bumpFirstMatch c.length (crc32 c) (db.obj_files_by_name n) = some (es', r) →
        (add_obj_from_dgo crc32 db n c g).stats.unique_obj_files = db.stats.unique_obj_files
        ∧ (add_obj_from_dgo crc32 db n c g).stats.unique_obj_bytes
            = db.stats.unique_obj_bytes)
    ∧ (∀ (crc32 : List Nat → Nat) (db : ObjectFileDB) (n : String) (c : List Nat) (g : String),
        bumpFirstMatch c.length (crc32 c) (db.obj_files_by_name n) = none →
        (add_obj_from_dgo crc32 db n c g).stats.unique_obj_files
            = db.stats.unique_obj_files + 1
        ∧ (add_obj_from_dgo crc32 db n c g).stats.unique_obj_bytes
            = db.stats.unique_obj_bytes + c.length) := by
  refine ⟨?_, add_obj_stats_total, add_obj_stats_dup, add_obj_stats_new⟩
  intro crc32 l
  obtain ⟨hinv, htot⟩ := statsInv_fold crc32 l emptyDB statsInv_empty
  exact ⟨by simpa [emptyDB] using htot, hinv.count, hinv.le, hinv.bytes⟩

/-- Closed instance of C4: two occurrences of the same content of `"a"` plus
one object `"b"` give total 3, two distinct entries, 3 distinct bytes
(lengths 1 and 2). -/
theorem C4_statistics_witness :
    ((buildDB (fun _ => 7) [⟨"a", [5], "A"⟩, ⟨"a", [5], "B"⟩, ⟨"b", [1, 2], "B"⟩]
        ).stats.total_obj_files = 3
      ∧ (buildDB (fun _ => 7) [⟨"a", [5], "A"⟩, ⟨"a", [5], "B"⟩, ⟨"b", [1, 2], "B"⟩]
          ).stats.unique_obj_files
        = storedEntryCount (buildDB (fun _ => 7)
            [⟨"a", [5], "A"⟩, ⟨"a", [5], "B"⟩, ⟨"b", [1, 2], "B"⟩])
      ∧ (buildDB (fun _ => 7) [⟨"a", [5], "A"⟩, ⟨"a", [5], "B"⟩, ⟨"b", [1, 2], "B"⟩]
          ).stats.unique_obj_files
        ≤ (buildDB (fun _ => 7) [⟨"a", [5], "A"⟩, ⟨"a", [5], "B"⟩, ⟨"b", [1, 2], "B"⟩]
            ).stats.total_obj_files
      ∧ (buildDB (fun _ => 7) [⟨"a", [5], "A"⟩, ⟨"a", [5], "B"⟩, ⟨"b", [1, 2], "B"⟩]
          ).stats.unique_obj_bytes
        = storedEntryBytes (buildDB (fun _ => 7)
            [⟨"a", [5], "A"⟩, ⟨"a", [5], "B"⟩, ⟨"b", [1, 2], "B"⟩]))
    ∧ ((add_obj_from_dgo (fun _ => 7) (add_obj_from_dgo (fun _ => 7) emptyDB "a" [5] "A")
          "a" [5] "B").stats.unique_obj_files
        = (add_obj_from_dgo (fun _ => 7) emptyDB "a" [5] "A").stats.unique_obj_files
      ∧ (add_obj_from_dgo (fun _ => 7) (add_obj_from_dgo (fun _ => 7) emptyDB "a" [5] "A")
          "a" [5] "B").stats.unique_obj_bytes
        = (add_obj_from_dgo (fun _ => 7) emptyDB "a" [5] "A").stats.unique_obj_bytes)
    ∧ ((add_obj_from_dgo (fun _ => 7) emptyDB "a" [5] "A").stats.unique_obj_files
        = emptyDB.stats.unique_obj_files + 1
      ∧ (add_obj_from_dgo (fun _ => 7) emptyDB "a" [5] "A").stats.unique_obj_bytes
        = emptyDB.stats.unique_obj_bytes + ([5] : List Nat).length) :=
  ⟨C4_statistics.1 (fun _ => 7) [⟨"a", [5], "A"⟩, ⟨"a", [5], "B"⟩, ⟨"b", [1, 2], "B"⟩],
   C4_statistics.2.2.1 (fun _ => 7) (add_obj_from_dgo (fun _ => 7) emptyDB "a" [5] "A")
     "a" [5] "B" [⟨[5], ⟨"a", 0, 7⟩, 2⟩] ⟨"a", 0, 7⟩ (by decide),
   C4_statistics.2.2.2 (fun _ => 7) emptyDB "a" [5] "A" (by decide)⟩

/-- The duplicate scan on a list that splits as `pre ++ e :: post`, where no
entry of `pre` matches and `e` matches, bumps exactly `e`. -/
theorem bumpFirstMatch_split (obj_size hash : Nat) (pre : List ObjectFileData)
    (e : ObjectFileData) (post : List ObjectFileData)
    (hpre : ∀ e' ∈ pre, ¬(e'.data.length = obj_size ∧ e'.record.hash = hash))
    (he : e.data.length = obj_size ∧ e.record.hash = hash) :
    bumpFirstMatch obj_size hash (pre ++ e :: post)
      = some (pre ++ { e with reference_count := e.reference_count + 1 } :: post,
              e.record) := by
  induction pre with
  | nil => simp [bumpFirstMatch, he]
  | cons x t ih =>
    have hx := hpre x (by simp)
    simp only [List.cons_append, bumpFirstMatch, if_neg hx, List.append_eq]
    rw [ih (fun e' he' => hpre e' (by simp [he']))]

/-- C7: Duplicate-insert frame property.  When the inserted content matches
the stored variant `e` of name `n` (first match: nothing in `pre` matches),
the insertion only bumps `e`'s reference count and appends `e`'s record to
the inserting archive's membership list; every other name's variants, the
global order, the distinct-entry statistics, other archives' membership
lists, and the variant-list length (no new entry storage) are unchanged, and
`e`'s bytes, name, version and hash are intact in the updated entry. -/
theorem C7_duplicate_frame (crc32 : List Nat → Nat) (db : ObjectFileDB)
    (n : String) (c : List Nat) (g : String)
    (pre post : List ObjectFileData) (e : ObjectFileData)
    (hsplit : db.obj_files_by_name n = pre ++ e :: post)
    (hpre : ∀ e' ∈ pre, ¬(e'.data.length = c.length ∧ e'.record.hash = crc32 c))
    (he : e.data.length = c.length ∧ e.record.hash = crc32 c) :
    (add_obj_from_dgo crc32 db n c g).obj_files_by_name n
        = pre ++ { e with reference_count := e.reference_count + 1 } :: post
    ∧ (∀ m : String, m ≠ n →
        (add_obj_from_dgo crc32 db n c g).obj_files_by_name m = db.obj_files_by_name m)
    ∧ (add_obj_from_dgo crc32 db n c g).obj_file_order = db.obj_file_order
    ∧ (add_obj_from_dgo crc32 db n c g).stats.unique_obj_files = db.stats.unique_obj_files
    ∧ (add_obj_from_dgo crc32 db n c g).stats.unique_obj_bytes = db.stats.unique_obj_bytes
    ∧ (add_obj_from_dgo crc32 db n c g).obj_files_by_dgo g
        = db.obj_files_by_dgo g ++ [e.record]
    ∧ (∀ a : String, a ≠ g →
        (add_obj_from_dgo crc32 db n c g).obj_files_by_dgo a = db.obj_files_by_dgo a)
    ∧ ((add_obj_from_dgo crc32 db n c g).obj_files_by_name n).length
        = (db.obj_files_by_name n).length := by
  have hb : bumpFirstMatch c.length (crc32 c) (db.obj_files_by_name n)
      = some (pre ++ { e with reference_count := e.reference_count + 1 } :: post,
              e.record) := by
    rw [hsplit]
    exact bumpFirstMatch_split c.length (crc32 c) pre e post hpre he
  have hd := add_obj_from_dgo_dup crc32 db n c g _ _ hb
  refine ⟨add_obj_by_name_self_dup crc32 db n c g _ _ hb,
    fun m hm => add_obj_by_name_other crc32 db n c g m hm,
    by rw [hd], by rw [hd], by rw [hd],
    by rw [hd]; simp,
    fun a ha => by rw [hd]; simp [ha],
    ?_⟩
  rw [add_obj_by_name_self_dup crc32 db n c g _ _ hb, hsplit]
  simp

/-- Closed instance of C7: a duplicate of the second variant of `"a"`
(matching on length 2 and fingerprint 2, under the length fingerprint) bumps
only that variant. -/
theorem C7_duplicate_frame_witness :
    (add_obj_from_dgo (fun l => l.length)
        (add_obj_from_dgo (fun l => l.length)
          (add_obj_from_dgo (fun l => l.length) emptyDB "a" [1] "A") "a" [2, 2] "A")
        "a" [3, 3] "B").obj_files_by_name "a"
      = [⟨[1], ⟨"a", 0, 1⟩, 1⟩] ++ ⟨[2, 2], ⟨"a", 1, 2⟩, 1 + 1⟩ :: []
    ∧ (add_obj_from_dgo (fun l => l.length)
        (add_obj_from_dgo (fun l => l.length)
          (add_obj_from_dgo (fun l => l.length) emptyDB "a" [1] "A") "a" [2, 2] "A")
        "a" [3, 3] "B").obj_files_by_name "zzz"
      = (add_obj_from_dgo (fun l => l.length)
          (add_obj_from_dgo (fun l => l.length) emptyDB "a" [1] "A") "a" [2, 2]
          "A").obj_files_by_name "zzz"
    ∧ (add_obj_from_dgo (fun l => l.length)
        (add_obj_from_dgo (fun l => l.length)
          (add_obj_from_dgo (fun l => l.length) emptyDB "a" [1] "A") "a" [2, 2] "A")
        "a" [3, 3] "B").obj_file_order
      = (add_obj_from_dgo (fun l => l.length)
          (add_obj_from_dgo (fun l => l.length) emptyDB "a" [1] "A") "a" [2, 2]
          "A").obj_file_order
    ∧ (add_obj_from_dgo (fun l => l.length)
        (add_obj_from_dgo (fun l => l.length)
          (add_obj_from_dgo (fun l => l.length) emptyDB "a" [1] "A") "a" [2, 2] "A")
        "a" [3, 3] "B").obj_files_by_dgo "B"
      = (add_obj_from_dgo (fun l => l.length)
          (add_obj_from_dgo (fun l => l.length) emptyDB "a" [1] "A") "a" [2, 2]
          "A").obj_files_by_dgo "B" ++ [(⟨[2, 2], ⟨"a", 1, 2⟩, 1⟩ : ObjectFileData).record] := by
  have h := C7_duplicate_frame (fun l => l.length)
    (add_obj_from_dgo (fun l => l.length)
      (add_obj_from_dgo (fun l => l.length) emptyDB "a" [1] "A") "a" [2, 2] "A")
    "a" [3, 3] "B" [⟨[1], ⟨"a", 0, 1⟩, 1⟩] [] ⟨[2, 2], ⟨"a", 1, 2⟩, 1⟩
    (by decide) (by decide) (by decide)
  exact ⟨h.1, h.2.1 "zzz" (by decide), h.2.2.1, h.2.2.2.2.2.1⟩

/-- Folding insertions adds, to each archive's membership-list length, the
number of insertions naming that archive. -/
theorem byDgo_len_fold (crc32 : List Nat → Nat) :
    ∀ (l : List Insertion) (db : ObjectFileDB) (a : String),
      ((l.foldl (fun d i => add_obj_from_dgo crc32 d i.obj_name i.obj_data i.dgo_name)
          db).obj_files_by_dgo a).length
        = (db.obj_files_by_dgo a).length + (l.map Insertion.dgo_name).count a := by
  intro l
  induction l with
  | nil => intro db a; simp
  | cons i t ih =>
    intro db a
    simp only [List.foldl_cons, List.map_cons]
    rw [ih]
    by_cases ha : a = i.dgo_name
    · subst ha
      obtain ⟨r, hr⟩ := (add_obj_by_dgo crc32 db i.obj_name i.obj_data i.dgo_name).1
      rw [hr]
      simp only [List.length_append, List.length_cons, List.length_nil, List.count_cons,
        beq_self_eq_true, if_true]
      omega
    · rw [(add_obj_by_dgo crc32 db i.obj_name i.obj_data i.dgo_name).2 a ha]
      have hne : (i.dgo_name == a) = false := by
        simp
        exact fun he => ha he.symm
      simp [List.count_cons, hne, ha]

/-- Summing per-name occurrence counts over any duplicate-free list covering
all names recovers the total length. -/
theorem sum_count_over (ord : List String) (hnd : ord.Nodup) :
    ∀ names : List String, (∀ a ∈ names, a ∈ ord) →
      (ord.map (fun a => names.count a)).sum = names.length := by
  intro names
  induction names with
  | nil => intro _; simp
  | cons x t ih =>
    intro hmem
    have hx : x ∈ ord := hmem x (by simp)
    have ht := ih (fun a ha => hmem a (by simp [ha]))
    have hupd := sum_map_update (fun a => t.count a) (fun a => (x :: t).count a) x 1
      (by simp [List.count_cons])
      (fun m hm => by simp [List.count_cons, hm])
      ord hx hnd
    rw [hupd, ht]
    rfl

/-- C9: Membership-count invariant.  Every insertion appends exactly one
record to the source archive's membership list (and no other archive's);
after any sequence of insertions each archive's membership-list length
equals the number of insertions naming that archive; and summing the
membership-list lengths over all archive names equals the occurrence
counter. -/
theorem C9_membership_counts :
    (∀ (crc32 : List Nat → Nat) (db : ObjectFileDB) (n : String) (c : List Nat) (g : String),
      ((add_obj_from_dgo crc32 db n c g).obj_files_by_dgo g).length
        = (db.obj_files_by_dgo g).length + 1
      ∧ ∀ a : String, a ≠ g →
          (add_obj_from_dgo crc32 db n c g).obj_files_by_dgo a = db.obj_files_by_dgo a)
    ∧ (∀ (crc32 : List Nat → Nat) (l : List Insertion) (a : String),
        ((buildDB crc32 l).obj_files_by_dgo a).length = (l.map Insertion.dgo_name).count a)
    ∧ (∀ (crc32 : List Nat → Nat) (l : List Insertion),
        ((l.map Insertion.dgo_name).dedup.map
          (fun a => ((buildDB crc32 l).obj_files_by_dgo a).length)).sum
          = (buildDB crc32 l).stats.total_obj_files) := by
  have hone : ∀ (crc32 : List Nat → Nat) (db : ObjectFileDB) (n : String) (c : List Nat)
      (g : String),
      ((add_obj_from_dgo crc32 db n c g).obj_files_by_dgo g).length
        = (db.obj_files_by_dgo g).length + 1 := by
    intro crc32 db n c g
    obtain ⟨r, hr⟩ := (add_obj_by_dgo crc32 db n c g).1
    rw [hr]
    simp
  have hlen : ∀ (crc32 : List Nat → Nat) (l : List Insertion) (a : String),
      ((buildDB crc32 l).obj_files_by_dgo a).length
        = (l.map Insertion.dgo_name).count a := by
    intro crc32 l a
    have := byDgo_len_fold crc32 l emptyDB a
    simpa [emptyDB] using this
  refine ⟨fun crc32 db n c g =>
      ⟨hone crc32 db n c g, (add_obj_by_dgo crc32 db n c g).2⟩, hlen, ?_⟩
  intro crc32 l
  have h1 : ((l.map Insertion.dgo_name).dedup.map
        (fun a => ((buildDB crc32 l).obj_files_by_dgo a).length)).sum
      = ((l.map Insertion.dgo_name).dedup.map
          (fun a => (l.map Insertion.dgo_name).count a)).sum := by
    congr 1
    exact List.map_congr_left fun a _ => hlen crc32 l a
  have h2 := sum_count_over (l.map Insertion.dgo_name).dedup (List.nodup_dedup _)
    (l.map Insertion.dgo_name) (fun a ha => List.mem_dedup.mpr ha)
  have h3 := (statsInv_fold crc32 l emptyDB statsInv_empty).2
  rw [h1, h2]
  rw [show (buildDB crc32 l).stats.total_obj_files = l.length from by
    simpa [emptyDB] using h3]
  simp

/-- Closed instance of C9: three insertions from archives `"A"`, `"B"`,
`"A"`. -/
theorem C9_membership_counts_witness :
    (((add_obj_from_dgo (fun _ => 0) emptyDB "a" [1] "A").obj_files_by_dgo "A").length
        = ((emptyDB : ObjectFileDB).obj_files_by_dgo "A").length + 1
      ∧ (add_obj_from_dgo (fun _ => 0) emptyDB "a" [1] "A").obj_files_by_dgo "Q"
        = (emptyDB : ObjectFileDB).obj_files_by_dgo "Q")
    ∧ ((buildDB (fun _ => 0) [⟨"a", [1], "A"⟩, ⟨"b", [2], "B"⟩, ⟨"c", [3], "A"⟩]
        ).obj_files_by_dgo "A").length
      = (([⟨"a", [1], "A"⟩, ⟨"b", [2], "B"⟩, ⟨"c", [3], "A"⟩] :
          List Insertion).map Insertion.dgo_name).count "A"
    ∧ ((([⟨"a", [1], "A"⟩, ⟨"b", [2], "B"⟩, ⟨"c", [3], "A"⟩] :
          List Insertion).map Insertion.dgo_name).dedup.map
        (fun a => ((buildDB (fun _ => 0)
          [⟨"a", [1], "A"⟩, ⟨"b", [2], "B"⟩, ⟨"c", [3], "A"⟩]).obj_files_by_dgo a).length)).sum
      = (buildDB (fun _ => 0)
          [⟨"a", [1], "A"⟩, ⟨"b", [2], "B"⟩, ⟨"c", [3], "A"⟩]).stats.total_obj_files :=
  ⟨⟨(C9_membership_counts.1 (fun _ => 0) emptyDB "a" [1] "A").1,
    (C9_membership_counts.1 (fun _ => 0) emptyDB "a" [1] "A").2 "Q" (by decide)⟩,
   C9_membership_counts.2.1 (fun _ => 0)
     [⟨"a", [1], "A"⟩, ⟨"b", [2], "B"⟩, ⟨"c", [3], "A"⟩] "A",
   C9_membership_counts.2.2 (fun _ => 0)
     [⟨"a", [1], "A"⟩, ⟨"b", [2], "B"⟩, ⟨"c", [3], "A"⟩]⟩

/-- `Function` (declared outside the shown translation unit).  Modelled from
the spec: only the `guessed_name` field is read or written by the step
verified here, so it is the only field carried.  (The source class name
`Function` collides with a base namespace, hence `ObjFunction`.) -/
structure ObjFunction where
  guessed_name : String
deriving DecidableEq

/-- `LinkedObjectFile` (declared outside the shown translation unit).
Modelled from the spec: the link structure exposes a segment count
`segments` and a per-segment function list `functions_by_seg`, accessed by
the source with the bounds-checked `.at(2)` / `.front()`. -/
structure LinkedObjectFile where
  segments : Nat
  functions_by_seg : List (List ObjFunction)
deriving DecidableEq

/-- A fatal invariant violation of the analysis phase (a failed C++
`assert`, or `.at` out of range). -/
inductive AnalyzeError where
  | invariantViolation
deriving DecidableEq

/-- The top-level-segment step of `ObjectFileDB::analyze_functions`
(lines 409-422), for one object: if the link structure has exactly three
segments, segment 2 must hold exactly one function (else the `assert` at
line 414 fires) whose guessed name is still empty (`assert` at line 417);
that function is renamed to the literal "(top-level-init)".
`find_global_function_defs` only extracts references and does not touch the
modelled fields.  Objects with a different segment count are untouched. -/
def analyze_top_level (d : LinkedObjectFile) : Except AnalyzeError LinkedObjectFile :=
  if d.segments = 3 then
    match d.functions_by_seg.get? 2 with
    | none => .error .invariantViolation
    | some fns =>
      match fns with
      | [f] =>
        if f.guessed_name = "" then
          .ok { d with functions_by_seg :=
                  d.functions_by_seg.set 2 [{ f with guessed_name := "(top-level-init)" }] }
        else .error .invariantViolation
      | _ => .error .invariantViolation
  else .ok d

/-- C8: Top-level entry convention.  Objects whose link structure exposes a
segment count other than three are untouched; with exactly three segments,
zero or more than one function in segment 2 (or a missing segment list) is a
fatal invariant violation; and the single function of segment 2, previously
unnamed, is assigned the fixed literal name "(top-level-init)". -/
theorem C8_top_level_convention :
    (∀ d : LinkedObjectFile, d.segments ≠ 3 → analyze_top_level d = .ok d)
    ∧ (∀ (d : LinkedObjectFile) (fns : List ObjFunction),
        d.segments = 3 → d.functions_by_seg.get? 2 = some fns → fns.length ≠ 1 →
        analyze_top_level d = .error .invariantViolation)
    ∧ (∀ d : LinkedObjectFile,
        d.segments = 3 → d.functions_by_seg.get? 2 = none →
        analyze_top_level d = .error .invariantViolation)
    ∧ (∀ (d : LinkedObjectFile) (f : ObjFunction),
        d.segments = 3 → d.functions_by_seg.get? 2 = some [f] → f.guessed_name = "" →
        analyze_top_level d
          = .ok { d with functions_by_seg :=
              d.functions_by_seg.set 2 [⟨"(top-level-init)"⟩] }) := by
  refine ⟨?_, ?_, ?_, ?_⟩
  · intro d hd
    simp [analyze_top_level, hd]
  · intro d fns hseg hget hlen
    simp only [analyze_top_level, if_pos hseg, hget]
    match fns, hlen with
    | [], _ => rfl
    | [f], hlen => exact absurd rfl hlen
    | f :: g :: t, _ => rfl
  · intro d hseg hget
    rw [List.get?_eq_getElem?] at hget
    simp [analyze_top_level, hseg, hget]
  · intro d f hseg hget hname
    rw [List.get?_eq_getElem?] at hget
    simp [analyze_top_level, hseg, hget, hname]

/-- Closed instance of C8: a two-segment object is untouched; three segments
with two functions in segment 2 is fatal; three segments with one unnamed
function renames it. -/
theorem C8_top_level_convention_witness :
    analyze_top_level ⟨2, [[], [], [⟨""⟩]]⟩ = .ok ⟨2, [[], [], [⟨""⟩]]⟩
    ∧ analyze_top_level ⟨3, [[], [], [⟨""⟩, ⟨""⟩]]⟩ = .error .invariantViolation
    ∧ analyze_top_level ⟨3, [[], []]⟩ = .error .invariantViolation
    ∧ analyze_top_level ⟨3, [[], [], [⟨""⟩]]⟩
        = .ok ⟨3, ([[], [], [⟨""⟩]] : List (List ObjFunction)).set 2
            [⟨"(top-level-init)"⟩]⟩ :=
  ⟨C8_top_level_convention.1 ⟨2, [[], [], [⟨""⟩]]⟩ (by decide),
   C8_top_level_convention.2.1 ⟨3, [[], [], [⟨""⟩, ⟨""⟩]]⟩ [⟨""⟩, ⟨""⟩] rfl rfl (by decide),
   C8_top_level_convention.2.2.1 ⟨3, [[], []]⟩ rfl rfl,
   C8_top_level_convention.2.2.2 ⟨3, [[], [], [⟨""⟩]]⟩ ⟨""⟩ rfl rfl rfl⟩

/-- `BinaryReader` (util/BinaryReader.h, declared outside the shown
translation unit).  Modelled from the spec: a bounds-checked forward cursor
over a byte buffer, with `read`, `ffwd`, `here`, `get_seek` and
`bytes_left`. -/
structure BinaryReader where
  data : List Nat
  seek : Nat
deriving DecidableEq

/-- Remaining bytes from the cursor to the end of the buffer. -/
def BinaryReader.bytes_left (r : BinaryReader) : Nat := r.data.length - r.seek

/-- Fast-forward the cursor by `n` bytes. -/
def BinaryReader.ffwd (r : BinaryReader) (n : Nat) : BinaryReader :=
  { r with seek := r.seek + n }

/-- The little-endian value of a four-byte group. -/
def leWord : List Nat → Nat
  | [b0, b1, b2, b3] => b0 + 256 * (b1 + 256 * (b2 + 256 * b3))
  | _ => 0

/-- `read<uint32_t>`: consume four bytes, little-endian; fails when fewer
than four bytes remain. -/
def readU32 (r : BinaryReader) : Option (Nat × BinaryReader) :=
  if r.seek + 4 ≤ r.data.length then
    some (leWord ((r.data.drop r.seek).take 4), r.ffwd 4)
  else none

/-- `MAX_CHUNK_SIZE` (line 71). -/
def MAX_CHUNK_SIZE : Nat := 0x8000

/-- The padding-skip loop (lines 100-103): read 4-byte words, discarding
zeros, until a nonzero chunk size appears.  The fuel argument only bounds
the number of reads; each read consumes four bytes, so `bytes_left` many
iterations can never run out before a read fails. -/
def skipZeros : Nat → BinaryReader → Option (Nat × BinaryReader)
  | 0, _ => none
  | fuel + 1, r =>
    match readU32 r with
    | none => none
    | some (w, r1) => if w = 0 then skipZeros fuel r1 else some (w, r1)

/-- The alignment loop (lines 123-125), in closed form: fast-forward to the
next 4-byte boundary (`while (get_seek() % 4) ffwd(1)`). -/
def align4 (r : BinaryReader) : BinaryReader :=
  r.ffwd ((4 - r.seek % 4) % 4)

/-- `memcpy` / decompressor output into the buffer at byte offset `off`.
The buffer keeps its allocated size, as the `std::vector` does (`resize` is
called once, before the loop); bytes that would land past the end do not
grow it — whether a write fits is exactly what the write trace records. -/
def writeAt (out : List Nat) (off : Nat) (bytes : List Nat) : List Nat :=
  (out.take off ++ bytes ++ out.drop (off + bytes.length)).take out.length

/-- The decompression loop (lines 98-126).  `lzo1x_decompress` is
third-party (minilzo) and kept abstract as `lzo`, mapping a chunk's
compressed bytes to its decompressed output (`bytes_written` is that
output's length; the source asserts the call succeeds).  Alongside the
output buffer, the model returns the write trace: one `(output_offset,
bytes written)` pair per block, in order.  Fuel bounds the iteration count;
every iteration consumes at least four input bytes, so `data.length + 1`
iterations cannot run out before a read fails. -/
def decompressLoop (lzo : List Nat → List Nat) :
    Nat → BinaryReader → List Nat → Nat → Nat → List (Nat × Nat) →
      Option (List Nat × List (Nat × Nat))
  | 0, _, _, _, _, _ => none
  | fuel + 1, r, out, output_offset, decompressed_size, trace =>
    match skipZeros r.bytes_left r with
    | none => none
    | some (chunk_size, r1) =>
      if chunk_size < MAX_CHUNK_SIZE then
        let dec := lzo ((r1.data.drop r1.seek).take chunk_size)
        let out' := writeAt out output_offset dec
        let trace' := trace ++ [(output_offset, dec.length)]
        if output_offset + dec.length ≥ decompressed_size then some (out', trace')
        else decompressLoop lzo fuel (align4 (r1.ffwd chunk_size)) out'
          (output_offset + dec.length) decompressed_size trace'
      else
        let src := (r1.data.drop r1.seek).take MAX_CHUNK_SIZE
        let out' := writeAt out output_offset src
        let trace' := trace ++ [(output_offset, MAX_CHUNK_SIZE)]
        if output_offset + MAX_CHUNK_SIZE ≥ decompressed_size then some (out', trace')
        else decompressLoop lzo fuel (align4 (r1.ffwd MAX_CHUNK_SIZE)) out'
          (output_offset + MAX_CHUNK_SIZE) decompressed_size trace'

/-- The jak2 compressed-container tag "oZlB" (line 79). -/
def jak2_header : List Nat := [0x6f, 0x5a, 0x6c, 0x42]

/-- The decompression half of `get_objs_from_dgo` (lines 87-128): seek past
the 4-byte magic, read the 4-byte total decompressed size, allocate that
many zero bytes (`resize` value-initializes), and run the chunk loop from
output offset 0. -/
def decompressDgo (lzo : List Nat → List Nat) (dgo_data : List Nat) :
    Option (List Nat × List (Nat × Nat)) :=
  match readU32 ((BinaryReader.mk dgo_data 0).ffwd 4) with
  | none => none
  | some (decompressed_size, r1) =>
      decompressLoop lzo (dgo_data.length + 1) r1
        (List.replicate decompressed_size 0) 0 decompressed_size []

/-- A write never changes the allocated buffer size. -/
theorem writeAt_length (out : List Nat) (off : Nat) (bytes : List Nat) :
    (writeAt out off bytes).length = out.length := by
  simp [writeAt]
  omega

/-- The decompression loop never changes the allocated buffer size. -/
theorem decompressLoop_length (lzo : List Nat → List Nat) :
    ∀ (fuel : Nat) (r : BinaryReader) (out : List Nat) (off size : Nat)
      (trace : List (Nat × Nat)) (p : List Nat × List (Nat × Nat)),
      decompressLoop lzo fuel r out off size trace = some p →
      p.1.length = out.length := by
  intro fuel
  induction fuel with
  | zero => intro r out off size trace p h; cases h
  | succ fuel ih =>
    intro r out off size trace p h
    simp only [decompressLoop] at h
    cases hsk : skipZeros r.bytes_left r with
    | none => rw [hsk] at h; cases h
    | some q =>
      rw [hsk] at h
      obtain ⟨w, r1⟩ := q
      dsimp only at h
      by_cases hc : w < MAX_CHUNK_SIZE
      · rw [if_pos hc] at h
        by_cases hstop : off + (lzo ((r1.data.drop r1.seek).take w)).length ≥ size
        · rw [if_pos hstop] at h
          cases h
          exact writeAt_length out off _
        · rw [if_neg hstop] at h
          rw [ih _ _ _ _ _ _ h, writeAt_length]
      · rw [if_neg hc] at h
        by_cases hstop : off + MAX_CHUNK_SIZE ≥ size
        · rw [if_pos hstop] at h
          cases h
          exact writeAt_length out off _
        · rw [if_neg hstop] at h
          rw [ih _ _ _ _ _ _ h, writeAt_length]

/-- C5: Decompression output size.  Whenever the decompressor succeeds on a
compressed archive, the produced buffer has exactly the declared
`total_decompressed_size` bytes — the buffer is allocated at that size once
and no block write changes it. -/
theorem C5_decompressed_size (lzo : List Nat → List Nat) (data : List Nat)
    (p : List Nat × List (Nat × Nat)) (sz : Nat) (r1 : BinaryReader)
    (hh : readU32 ((BinaryReader.mk data 0).ffwd 4) = some (sz, r1))
    (h : decompressDgo lzo data = some p) :
    p.1.length = sz := by
  unfold decompressDgo at h
  rw [hh] at h
  have := decompressLoop_length lzo (data.length + 1) r1 (List.replicate sz 0) 0 sz [] p h
  simpa using this

/-- One unfolding of the zero-skip loop when the first word is nonzero. -/
theorem skipZeros_succ_of_nonzero (fuel : Nat) (r : BinaryReader) (w : Nat)
    (r1 : BinaryReader) (hr : readU32 r = some (w, r1)) (hw : w ≠ 0) :
    skipZeros (fuel + 1) r = some (w, r1) := by
  simp only [skipZeros]
  rw [hr]
  dsimp only
  rw [if_neg hw]

/-- One unfolding of the decompression loop: a literal (chunk size at or
above the cap) block that already fills the buffer ends the loop. -/
theorem decompressLoop_literal_last (lzo : List Nat → List Nat) (fuel : Nat)
    (r : BinaryReader) (out : List Nat) (off size : Nat) (trace : List (Nat × Nat))
    (w : Nat) (r1 : BinaryReader)
    (hsk : skipZeros r.bytes_left r = some (w, r1))
    (hw : ¬w < MAX_CHUNK_SIZE)
    (hstop : off + MAX_CHUNK_SIZE ≥ size) :
    decompressLoop lzo (fuel + 1) r out off size trace
      = some (writeAt out off ((r1.data.drop r1.seek).take MAX_CHUNK_SIZE),
              trace ++ [(off, MAX_CHUNK_SIZE)]) := by
  simp only [decompressLoop]
  rw [hsk]
  dsimp only
  rw [if_neg hw, if_pos hstop]

/-- A prefix of a replication is the shorter replication. -/
theorem take_replicate_of_le {α : Type} (a : α) {n m : Nat} (h : n ≤ m) :
    (List.replicate m a).take n = List.replicate n a := by
  have hm : m = n + (m - n) := by omega
  rw [hm, List.replicate_add, List.take_left' (by simp)]

/-- Every write recorded by the loop starts strictly inside the buffer,
provided the running offset does (the loop breaks as soon as the offset
reaches the declared size, so each iteration starts below it). -/
theorem decompressLoop_trace_offsets (lzo : List Nat → List Nat) :
    ∀ (fuel : Nat) (r : BinaryReader) (out : List Nat) (off size : Nat)
      (trace : List (Nat × Nat)) (p : List Nat × List (Nat × Nat)),
      decompressLoop lzo fuel r out off size trace = some p →
      off < size → (∀ e ∈ trace, e.1 < size) → ∀ e ∈ p.2, e.1 < size := by
  intro fuel
  induction fuel with
  | zero => intro r out off size trace p h; cases h
  | succ fuel ih =>
    intro r out off size trace p h hoff htr
    simp only [decompressLoop] at h
    cases hsk : skipZeros r.bytes_left r with
    | none => rw [hsk] at h; cases h
    | some q =>
      rw [hsk] at h
      obtain ⟨w, r1⟩ := q
      dsimp only at h
      by_cases hc : w < MAX_CHUNK_SIZE
      · rw [if_pos hc] at h
        by_cases hstop : off + (lzo ((r1.data.drop r1.seek).take w)).length ≥ size
        · rw [if_pos hstop] at h
          cases h
          intro e he
          rcases List.mem_append.mp he with he | he
          · exact htr e he
          · simp at he
            rw [he]
            exact hoff
        · rw [if_neg hstop] at h
          refine ih _ _ _ _ _ _ h (by omega) ?_
          intro e he
          rcases List.mem_append.mp he with he | he
          · exact htr e he
          · simp at he
            rw [he]
            exact hoff
      · rw [if_neg hc] at h
        by_cases hstop : off + MAX_CHUNK_SIZE ≥ size
        · rw [if_pos hstop] at h
          cases h
          intro e he
          rcases List.mem_append.mp he with he | he
          · exact htr e he
          · simp at he
            rw [he]
            exact hoff
        · rw [if_neg hstop] at h
          refine ih _ _ _ _ _ _ h (by omega) ?_
          intro e he
          rcases List.mem_append.mp he with he | he
          · exact htr e he
          · simp at he
            rw [he]
            exact hoff

/-- Projection lemmas for literal readers, used to keep all later reasoning
propositional (the kernel must never be forced to evaluate a 0x8000-element
list). -/
theorem reader_mk_data (d : List Nat) (k : Nat) :
    ({ data := d, seek := k } : BinaryReader).data = d := rfl

theorem reader_mk_seek (d : List Nat) (k : Nat) :
    ({ data := d, seek := k } : BinaryReader).seek = k := rfl

theorem bytes_left_mk (d : List Nat) (k : Nat) :
    ({ data := d, seek := k } : BinaryReader).bytes_left = d.length - k := rfl

theorem ffwd_mk (d : List Nat) (k n : Nat) :
    (BinaryReader.mk d k).ffwd n = BinaryReader.mk d (k + n) := rfl

theorem MAX_CHUNK_SIZE_eq : MAX_CHUNK_SIZE = 32768 := rfl

/-- `readU32` on an in-bounds literal reader, as a rewrite rule. -/
theorem readU32_mk (d : List Nat) (k : Nat) (h : k + 4 ≤ d.length) :
    readU32 { data := d, seek := k }
      = some (leWord ((d.drop k).take 4), { data := d, seek := k + 4 }) := by
  unfold readU32
  rw [if_pos h]
  rfl

/-- One unfolding of the top of `decompressDgo`, as a rewrite rule. -/
theorem decompressDgo_eq (lzo : List Nat → List Nat) (data : List Nat) (sz : Nat)
    (r1 : BinaryReader)
    (h : readU32 ((BinaryReader.mk data 0).ffwd 4) = some (sz, r1)) :
    decompressDgo lzo data
      = decompressLoop lzo (data.length + 1) r1 (List.replicate sz 0) 0 sz [] := by
  unfold decompressDgo
  rw [h]

/-- One unfolding of the decompression loop for a final literal block, with
the copied bytes abstracted into a hypothesis. -/
theorem decompressLoop_literal_last' (lzo : List Nat → List Nat) (fuel : Nat)
    (r : BinaryReader) (out : List Nat) (off size : Nat) (trace : List (Nat × Nat))
    (w : Nat) (r1 : BinaryReader) (bytes : List Nat)
    (hsk : skipZeros r.bytes_left r = some (w, r1))
    (hw : ¬w < MAX_CHUNK_SIZE)
    (hbytes : (r1.data.drop r1.seek).take MAX_CHUNK_SIZE = bytes)
    (hstop : off + MAX_CHUNK_SIZE ≥ size) :
    decompressLoop lzo (fuel + 1) r out off size trace
      = some (writeAt out off bytes, trace ++ [(off, MAX_CHUNK_SIZE)]) := by
  simp only [decompressLoop]
  rw [hsk]
  dsimp only
  rw [if_neg hw, if_pos hstop, hbytes]

/-- The §8 scenario archive: compressed magic, declared size 40, one
chunk-size word at the cap (forcing the literal branch), 0x8000 literal
bytes, a zero padding word, then a second compressed chunk (3 bytes).  The
literal block already fills the 40-byte buffer, so the loop stops there and
the remaining words are never read. -/
def scenario40 : List Nat :=
  jak2_header
    ++ ([40, 0, 0, 0]
      ++ ([0, 0x80, 0, 0]
        ++ (List.replicate 32768 5
          ++ ([0, 0, 0, 0] ++ ([3, 0, 0, 0] ++ [9, 9, 9])))))

theorem scenario40_def :
    scenario40
      = jak2_header
          ++ ([40, 0, 0, 0]
            ++ ([0, 0x80, 0, 0]
              ++ (List.replicate 32768 5
                ++ ([0, 0, 0, 0] ++ ([3, 0, 0, 0] ++ [9, 9, 9]))))) := rfl

theorem scenario40_length : scenario40.length = 32791 := by
  rw [scenario40_def, List.length_append, List.length_append, List.length_append,
    List.length_append, List.length_append, List.length_append, List.length_replicate]
  norm_num [jak2_header]

theorem scenario40_drop4 :
    scenario40.drop 4
      = [40, 0, 0, 0]
          ++ ([0, 0x80, 0, 0]
            ++ (List.replicate 32768 5
              ++ ([0, 0, 0, 0] ++ ([3, 0, 0, 0] ++ [9, 9, 9])))) := by
  rw [scenario40_def]
  exact List.drop_left' (by norm_num [jak2_header])

theorem scenario40_drop8 :
    scenario40.drop 8
      = [0, 0x80, 0, 0]
          ++ (List.replicate 32768 5
            ++ ([0, 0, 0, 0] ++ ([3, 0, 0, 0] ++ [9, 9, 9]))) := by
  rw [show (8 : Nat) = 4 + 4 from rfl, ← List.drop_drop, scenario40_drop4]
  exact List.drop_left' (by norm_num)

theorem scenario40_drop12 :
    scenario40.drop 12
      = List.replicate 32768 5 ++ ([0, 0, 0, 0] ++ ([3, 0, 0, 0] ++ [9, 9, 9])) := by
  rw [show (12 : Nat) = 8 + 4 from rfl, ← List.drop_drop, scenario40_drop8]
  exact List.drop_left' (by norm_num)

theorem scenario40_read_size :
    readU32 ((BinaryReader.mk scenario40 0).ffwd 4)
      = some (40, { data := scenario40, seek := 8 }) := by
  rw [ffwd_mk, Nat.zero_add,
    readU32_mk scenario40 4 (by rw [scenario40_length]; norm_num),
    scenario40_drop4, List.take_left' (by norm_num)]
  rfl

theorem scenario40_skip :
    skipZeros ({ data := scenario40, seek := 8 } : BinaryReader).bytes_left
      { data := scenario40, seek := 8 }
      = some (32768, { data := scenario40, seek := 12 }) := by
  rw [bytes_left_mk, scenario40_length,
    show (32791 - 8 : Nat) = 32782 + 1 from rfl]
  refine skipZeros_succ_of_nonzero 32782 _ 32768 _ ?_ (by norm_num)
  rw [readU32_mk scenario40 8 (by rw [scenario40_length]; norm_num),
    scenario40_drop8, List.take_left' (by norm_num)]
  rfl

theorem scenario40_litsrc :
    (({ data := scenario40, seek := 12 } : BinaryReader).data.drop
        ({ data := scenario40, seek := 12 } : BinaryReader).seek).take MAX_CHUNK_SIZE
      = List.replicate 32768 5 := by
  rw [reader_mk_data, reader_mk_seek, scenario40_drop12, MAX_CHUNK_SIZE_eq,
    List.take_left' (by norm_num)]

theorem writeAt_forty :
    writeAt (List.replicate 40 0) 0 (List.replicate 32768 5) = List.replicate 40 5 := by
  unfold writeAt
  rw [List.take_zero, List.nil_append, List.length_replicate, List.length_replicate,
    List.drop_eq_nil_of_le (by norm_num), List.append_nil,
    take_replicate_of_le 5 (show (40 : Nat) ≤ 32768 by norm_num)]

theorem scenario40_run :
    decompressDgo (fun src => src) scenario40
      = some (List.replicate 40 5, [(0, 32768)]) := by
  rw [decompressDgo_eq (fun src => src) scenario40 40 { data := scenario40, seek := 8 }
    scenario40_read_size]
  rw [scenario40_length]
  rw [decompressLoop_literal_last' (fun src => src) 32791 { data := scenario40, seek := 8 }
    (List.replicate 40 0) 0 40 [] 32768 { data := scenario40, seek := 12 }
    (List.replicate 32768 5) scenario40_skip (by rw [MAX_CHUNK_SIZE_eq]; norm_num)
    scenario40_litsrc (by rw [MAX_CHUNK_SIZE_eq]; norm_num)]
  rw [writeAt_forty, List.nil_append, MAX_CHUNK_SIZE_eq]

/-- A malformed-for-bounds archive: declared size 10 but a literal chunk of
0x8000 bytes, whose write extends far past the 10-byte output buffer. -/
def overflow10 : List Nat :=
  jak2_header ++ ([10, 0, 0, 0] ++ ([0, 0x80, 0, 0] ++ List.replicate 32768 7))

theorem overflow10_def :
    overflow10
      = jak2_header
          ++ ([10, 0, 0, 0] ++ ([0, 0x80, 0, 0] ++ List.replicate 32768 7)) := rfl

theorem overflow10_length : overflow10.length = 32780 := by
  rw [overflow10_def, List.length_append, List.length_append, List.length_append,
    List.length_replicate]
  norm_num [jak2_header]

theorem overflow10_drop4 :
    overflow10.drop 4
      = [10, 0, 0, 0] ++ ([0, 0x80, 0, 0] ++ List.replicate 32768 7) := by
  rw [overflow10_def]
  exact List.drop_left' (by norm_num [jak2_header])

theorem overflow10_drop8 :
    overflow10.drop 8 = [0, 0x80, 0, 0] ++ List.replicate 32768 7 := by
  rw [show (8 : Nat) = 4 + 4 from rfl, ← List.drop_drop, overflow10_drop4]
  exact List.drop_left' (by norm_num)

theorem overflow10_drop12 : overflow10.drop 12 = List.replicate 32768 7 := by
  rw [show (12 : Nat) = 8 + 4 from rfl, ← List.drop_drop, overflow10_drop8]
  exact List.drop_left' (by norm_num)

theorem overflow10_read_size :
    readU32 ((BinaryReader.mk overflow10 0).ffwd 4)
      = some (10, { data := overflow10, seek := 8 }) := by
  rw [ffwd_mk, Nat.zero_add,
    readU32_mk overflow10 4 (by rw [overflow10_length]; norm_num),
    overflow10_drop4, List.take_left' (by norm_num)]
  rfl

theorem overflow10_skip :
    skipZeros ({ data := overflow10, seek := 8 } : BinaryReader).bytes_left
      { data := overflow10, seek := 8 }
      = some (32768, { data := overflow10, seek := 12 }) := by
  rw [bytes_left_mk, overflow10_length,
    show (32780 - 8 : Nat) = 32771 + 1 from rfl]
  refine skipZeros_succ_of_nonzero 32771 _ 32768 _ ?_ (by norm_num)
  rw [readU32_mk overflow10 8 (by rw [overflow10_length]; norm_num),
    overflow10_drop8, List.take_left' (by norm_num)]
  rfl

theorem overflow10_litsrc :
    (({ data := overflow10, seek := 12 } : BinaryReader).data.drop
        ({ data := overflow10, seek := 12 } : BinaryReader).seek).take MAX_CHUNK_SIZE
      = List.replicate 32768 7 := by
  rw [reader_mk_data, reader_mk_seek, overflow10_drop12, MAX_CHUNK_SIZE_eq,
    take_replicate_of_le 7 (show (32768 : Nat) ≤ 32768 by norm_num)]

theorem writeAt_ten :
    writeAt (List.replicate 10 0) 0 (List.replicate 32768 7) = List.replicate 10 7 := by
  unfold writeAt
  rw [List.take_zero, List.nil_append, List.length_replicate, List.length_replicate,
    List.drop_eq_nil_of_le (by norm_num), List.append_nil,
    take_replicate_of_le 7 (show (10 : Nat) ≤ 32768 by norm_num)]

theorem overflow10_run :
    decompressDgo (fun src => src) overflow10
      = some (List.replicate 10 7, [(0, 32768)]) := by
  rw [decompressDgo_eq (fun src => src) overflow10 10 { data := overflow10, seek := 8 }
    overflow10_read_size]
  rw [overflow10_length]
  rw [decompressLoop_literal_last' (fun src => src) 32780 { data := overflow10, seek := 8 }
    (List.replicate 10 0) 0 10 [] 32768 { data := overflow10, seek := 12 }
    (List.replicate 32768 7) overflow10_skip (by rw [MAX_CHUNK_SIZE_eq]; norm_num)
    overflow10_litsrc (by rw [MAX_CHUNK_SIZE_eq]; norm_num)]
  rw [writeAt_ten, List.nil_append, MAX_CHUNK_SIZE_eq]
/-- Closed instance of C5 — the §8 scenario: declared size 40, a literal
chunk (it alone fills the buffer, so the padding word and the second
compressed chunk behind it are never consumed), producing exactly 40
bytes. -/
theorem C5_decompressed_size_witness :
    decompressDgo (fun src => src) scenario40
      = some (List.replicate 40 5, [(0, 32768)])
    ∧ (List.replicate 40 5, ([(0, 32768)] : List (Nat × Nat))).1.length = 40 :=
  ⟨scenario40_run,
   C5_decompressed_size (fun src => src) scenario40 (List.replicate 40 5, [(0, 32768)]) 40
     { data := scenario40, seek := 8 } scenario40_read_size scenario40_run⟩

/-- C10 (amended): Decompression write-offset safety.  On any successful
decompression with positive declared size, every recorded block write
begins at an offset strictly inside the output buffer, because the loop
stops as soon as the running offset reaches the declared size.  The write
may still extend past the end (the literal branch always writes 0x8000
bytes regardless of the space left) — the unamended claim is refuted by the
counterexample. -/
theorem C10_write_offsets (lzo : List Nat → List Nat) (data : List Nat)
    (p : List Nat × List (Nat × Nat)) (sz : Nat) (r1 : BinaryReader)
    (hh : readU32 ((BinaryReader.mk data 0).ffwd 4) = some (sz, r1))
    (h : decompressDgo lzo data = some p) (hpos : 0 < sz) :
    ∀ e ∈ p.2, e.1 < sz := by
  unfold decompressDgo at h
  rw [hh] at h
  exact decompressLoop_trace_offsets lzo (data.length + 1) r1 (List.replicate sz 0) 0 sz
    [] p h hpos (by intro e he; cases he)

/-- Closed instance of the amended C10: the single write of the overflowing
archive starts at offset 0, inside the 10-byte buffer. -/
theorem C10_write_offsets_witness : ((0, 32768) : Nat × Nat).1 < 10 :=
  C10_write_offsets (fun src => src) overflow10 (List.replicate 10 7, [(0, 32768)]) 10
    { data := overflow10, seek := 8 } overflow10_read_size overflow10_run (by norm_num)
    (0, 32768) (by simp)

/-- Counterexample to C10 as stated: with declared size 10 and a literal
chunk, decompression succeeds with the single recorded write
(offset 0, 0x8000 bytes written), which extends 32758 bytes past the end of
the 10-byte output buffer — the literal `memcpy` is not bounded by the
space remaining. -/
theorem C10_write_bounds_counterexample :
    decompressDgo (fun src => src) overflow10
      = some (List.replicate 10 7, [(0, 32768)])
    ∧ ¬(0 + 32768 ≤ 10) :=
  ⟨overflow10_run, by norm_num⟩

/-- `DgoHeader` (lines 50-53): a 4-byte unsigned count/size field followed
by a fixed 60-byte name field. -/
structure DgoHeader where
  size : Nat
  name : List Nat
deriving DecidableEq

/-- `read<DgoHeader>`: consume 64 bytes (4-byte little-endian size, 60-byte
raw name field); fails when fewer than 64 bytes remain. -/
def readDgoHeader (r : BinaryReader) : Option (DgoHeader × BinaryReader) :=
  if r.seek + 64 ≤ r.data.length then
    some (⟨leWord ((r.data.drop r.seek).take 4), (r.data.drop (r.seek + 4)).take 60⟩,
          r.ffwd 64)
  else none

/-- The C string held in a fixed-size name field: the bytes before the
first NUL.  (C++ `operator==` between a `char` array and a `std::string`
compares exactly these, and `add_obj_from_dgo` receives the name this
way.) -/
def cString (bytes : List Nat) : List Nat := bytes.takeWhile (fun b => b != 0)

/-- `assert_string_empty_after` (lines 60-68): walk to the first NUL, then
require every byte from there to the end of the field to be zero.  (A field
with no NUL at all makes the C++ walk out of the array; real headers always
hold one.) -/
def string_empty_after (bytes : List Nat) : Bool :=
  (bytes.dropWhile (fun b => b != 0)).all (fun b => b == 0)

/-- Error kinds of the container parse (§7 of the spec): the C++ `assert`s
at line 134 (archive name mismatch), lines 135/141 (nonzero byte after the
name terminator), line 140 (declared object size exceeds remaining bytes),
line 148 (unconsumed bytes at the end), reads past the buffer end inside
`BinaryReader`, and a failed decompression. -/
inductive ParseError where
  | OutOfBounds
  | DecompressionError
  | ArchiveNameMismatch
  | MalformedHeader
  | TruncatedObject
  | TrailingData
deriving DecidableEq

/-- The per-object loop (lines 138-145): read an object header, check the
declared size against the remaining bytes (line 140), check the name
field's padding (line 141), take the object's raw bytes in archive order,
and fast-forward past them. -/
def parseObjs : Nat → BinaryReader → List (List Nat × List Nat) →
    Except ParseError (List (List Nat × List Nat) × BinaryReader)
  | 0, r, acc => .ok (acc, r)
  | n + 1, r, acc =>
    match readDgoHeader r with
    | none => .error .OutOfBounds
    | some (oh, r1) =>
      if r1.bytes_left < oh.size then .error .TruncatedObject
      else if !string_empty_after oh.name then .error .MalformedHeader
      else
        parseObjs n (r1.ffwd oh.size)
          (acc ++ [(cString oh.name, (r1.data.drop r1.seek).take oh.size)])

/-- The parsing half of `get_objs_from_dgo` (lines 130-149), on the
(possibly already decompressed) archive bytes: read the archive header,
compare its C-string name with the archive's base name (line 134), check
the name padding (line 135), parse the declared number of objects, and
require the cursor to land exactly at the end (line 148). -/
def parse_dgo (dgo_base_name : List Nat) (data : List Nat) :
    Except ParseError (List (List Nat × List Nat)) :=
  match readDgoHeader (BinaryReader.mk data 0) with
  | none => .error .OutOfBounds
  | some (h, r1) =>
    if cString h.name ≠ dgo_base_name then .error .ArchiveNameMismatch
    else if !string_empty_after h.name then .error .MalformedHeader
    else
      match parseObjs h.size r1 [] with
      | .error e => .error e
      | .ok (objs, r2) => if r2.bytes_left ≠ 0 then .error .TrailingData else .ok objs

/-- `get_objs_from_dgo` (lines 75-149), statistics and store insertion
aside: when the first four bytes are the jak2 magic, decompress first, then
parse the container. -/
def get_objs_from_dgo (lzo : List Nat → List Nat) (dgo_base_name : List Nat)
    (data : List Nat) : Except ParseError (List (List Nat × List Nat)) :=
  if data.take 4 = jak2_header then
    match decompressDgo lzo data with
    | none => .error .DecompressionError
    | some p => parse_dgo dgo_base_name p.1
  else parse_dgo dgo_base_name data

/-- Spec-side serializer: little-endian bytes of a 32-bit value. -/
def le32 (n : Nat) : List Nat :=
  [n % 256, n / 256 % 256, n / 2 ^ 16 % 256, n / 2 ^ 24 % 256]

/-- Spec-side serializer: a 60-byte name field (the name, then zero
padding). -/
def encodeName (name : List Nat) : List Nat :=
  name ++ List.replicate (60 - name.length) 0

/-- Spec-side serializer: one embedded object (header, then raw bytes). -/
def encodeObj (o : List Nat × List Nat) : List Nat :=
  le32 o.2.length ++ (encodeName o.1 ++ o.2)

/-- Spec-side serializer: a whole well-formed uncompressed archive. -/
def mkDgo (base : List Nat) (objs : List (List Nat × List Nat)) : List Nat :=
  le32 objs.length ++ (encodeName base ++ (objs.map encodeObj).flatten)

/-- A well-formed header name: at most 59 bytes, none of them zero. -/
def WFName (name : List Nat) : Prop := name.length ≤ 59 ∧ ∀ b ∈ name, b ≠ 0

theorem leWord_le32 (n : Nat) (h : n < 2 ^ 32) : leWord (le32 n) = n := by
  simp only [le32, leWord]
  omega

theorem le32_length (n : Nat) : (le32 n).length = 4 := rfl

theorem encodeName_length (name : List Nat) (h : name.length ≤ 59) :
    (encodeName name).length = 60 := by
  simp [encodeName]
  omega

theorem cString_encodeName (name : List Nat) (h : WFName name) :
    cString (encodeName name) = name := by
  unfold cString encodeName
  rw [List.takeWhile_append_of_pos (by
    intro b hb
    simpa using h.2 b hb)]
  rw [List.takeWhile_replicate]
  simp

theorem string_empty_after_encodeName (name : List Nat) (h : WFName name) :
    string_empty_after (encodeName name) = true := by
  unfold string_empty_after encodeName
  rw [List.dropWhile_append_of_pos (by
    intro b hb
    simpa using h.2 b hb)]
  rw [List.dropWhile_replicate]
  simp

/-- Decoding a serialized header: reading 64 bytes at a position holding
`le32 sz ++ (encodeName name ++ rest)` yields the header back and advances
by 64. -/
theorem readDgoHeader_encode (d : List Nat) (k sz : Nat) (name rest : List Nat)
    (hd : d.drop k = le32 sz ++ (encodeName name ++ rest))
    (hname : name.length ≤ 59) (hsz : sz < 2 ^ 32) :
    readDgoHeader { data := d, seek := k }
      = some (⟨sz, encodeName name⟩, { data := d, seek := k + 64 }) := by
  have hlen : d.length - k = 64 + rest.length := by
    have h2 := congrArg List.length hd
    rw [List.length_drop, List.length_append, List.length_append, le32_length,
      encodeName_length name hname] at h2
    omega
  have hk : k ≤ d.length := by
    by_contra hc
    push_neg at hc
    rw [List.drop_eq_nil_of_le (le_of_lt hc)] at hd
    have h2 := congrArg List.length hd
    rw [List.length_append, List.length_append, le32_length,
      encodeName_length name hname] at h2
    simp only [List.length_nil] at h2
    omega
  unfold readDgoHeader
  rw [if_pos (show k + 64 ≤ d.length by omega)]
  rw [reader_mk_data, reader_mk_seek, ← List.drop_drop, hd,
    List.take_left' (le32_length sz), leWord_le32 sz hsz,
    List.drop_left' (le32_length sz),
    List.take_left' (encodeName_length name hname), ffwd_mk]

/-- Parsing `n` serialized objects from a position holding their
concatenation consumes the buffer to some final position at or past the
end of the data and returns exactly those objects, appended to the
accumulator. -/
theorem parseObjs_encode :
    ∀ (objs : List (List Nat × List Nat)) (d : List Nat) (k : Nat)
      (acc : List (List Nat × List Nat)),
      (∀ o ∈ objs, WFName o.1 ∧ o.2.length < 2 ^ 32) →
      d.drop k = (objs.map encodeObj).flatten →
      ∃ k2 : Nat, parseObjs objs.length { data := d, seek := k } acc
          = .ok (acc ++ objs, { data := d, seek := k2 })
        ∧ d.length ≤ k2 := by
  intro objs
  induction objs with
  | nil =>
    intro d k acc _ hd
    refine ⟨k, by simp [parseObjs], ?_⟩
    have h2 := congrArg List.length hd
    rw [List.length_drop] at h2
    simp at h2
    omega
  | cons o t ih =>
    intro d k acc hwf hd
    rw [List.map_cons, List.flatten_cons, encodeObj, List.append_assoc,
      List.append_assoc] at hd
    have hwfo := hwf o (by simp)
    have hread := readDgoHeader_encode d k o.2.length o.1
      (o.2 ++ (t.map encodeObj).flatten) hd hwfo.1.1 hwfo.2
    have hlen : d.length - k = 64 + (o.2.length + ((t.map encodeObj).flatten).length) := by
      have h2 := congrArg List.length hd
      rw [List.length_drop, List.length_append, List.length_append,
        List.length_append, le32_length, encodeName_length o.1 hwfo.1.1] at h2
      omega
    have hdrop64 : d.drop (k + 64) = o.2 ++ (t.map encodeObj).flatten := by
      rw [← List.drop_drop, hd, ← List.append_assoc]
      exact List.drop_left' (by rw [List.length_append, le32_length,
        encodeName_length o.1 hwfo.1.1])
    have hdropnext : d.drop (k + 64 + o.2.length) = (t.map encodeObj).flatten := by
      rw [← List.drop_drop, hdrop64]
      exact List.drop_left' rfl
    simp only [List.length_cons, parseObjs]
    rw [hread]
    dsimp only
    rw [if_neg (by
      rw [bytes_left_mk]
      omega)]
    rw [string_empty_after_encodeName o.1 hwfo.1]
    rw [if_neg (by simp)]
    rw [hdrop64, List.take_left' rfl, cString_encodeName o.1 hwfo.1]
    obtain ⟨k2, hp, hk2⟩ := ih d (k + 64 + o.2.length)
      (acc ++ [(o.1, o.2)]) (fun x hx => hwf x (by simp [hx])) hdropnext
    refine ⟨k2, ?_, hk2⟩
    simpa using hp

/-- Parsing a serialized well-formed archive succeeds and returns exactly
its objects. -/
theorem parse_dgo_mkDgo (base : List Nat) (objs : List (List Nat × List Nat))
    (hbase : WFName base)
    (hobjs : ∀ o ∈ objs, WFName o.1 ∧ o.2.length < 2 ^ 32)
    (hcount : objs.length < 2 ^ 32) :
    parse_dgo base (mkDgo base objs) = .ok objs := by
  unfold parse_dgo
  have hd0 : (mkDgo base objs).drop 0
      = le32 objs.length ++ (encodeName base ++ (objs.map encodeObj).flatten) := rfl
  rw [readDgoHeader_encode (mkDgo base objs) 0 objs.length base
    ((objs.map encodeObj).flatten) hd0 hbase.1 hcount]
  dsimp only
  rw [cString_encodeName base hbase]
  rw [if_neg (by simp)]
  rw [string_empty_after_encodeName base hbase]
  rw [if_neg (by simp)]
  have hd64 : (mkDgo base objs).drop (0 + 64) = (objs.map encodeObj).flatten := by
    rw [Nat.zero_add, show mkDgo base objs
        = (le32 objs.length ++ encodeName base) ++ (objs.map encodeObj).flatten from by
      rw [mkDgo, List.append_assoc]]
    exact List.drop_left' (by rw [List.length_append, le32_length,
      encodeName_length base hbase.1])
  obtain ⟨k2, hp, hk2⟩ := parseObjs_encode objs (mkDgo base objs) (0 + 64) [] hobjs hd64
  rw [hp]
  dsimp only
  rw [if_neg (by
    rw [bytes_left_mk]
    omega)]
  simp

/-- C6: Container validation.  (1) An archive header whose name field holds
a nonzero byte after its terminator (with the name itself matching the base
name, which is checked first) fails with `MalformedHeader`; (2) an object
whose declared length exceeds the remaining bytes fails with
`TruncatedObject`; (3) an object header with a nonzero byte after its name
terminator (when its length fits, which is checked first) fails with
`MalformedHeader`; (4) bytes left unconsumed after the declared number of
objects fail with `TrailingData`; (5) a well-formed archive (serialized
from any base name and object list with NUL-free names of at most 59 bytes
and 32-bit sizes) triggers none of these: parsing succeeds and returns
exactly its objects. -/
theorem C6_container_validation :
    (∀ (base data : List Nat) (sz : Nat) (nb : List Nat) (r1 : BinaryReader),
      readDgoHeader (BinaryReader.mk data 0) = some (⟨sz, nb⟩, r1) →
      cString nb = base → string_empty_after nb = false →
      parse_dgo base data = .error .MalformedHeader)
    ∧ (∀ (n : Nat) (r : BinaryReader) (acc : List (List Nat × List Nat)) (sz : Nat)
        (nb : List Nat) (r1 : BinaryReader),
        readDgoHeader r = some (⟨sz, nb⟩, r1) → r1.bytes_left < sz →
        parseObjs (n + 1) r acc = .error .TruncatedObject)
    ∧ (∀ (n : Nat) (r : BinaryReader) (acc : List (List Nat × List Nat)) (sz : Nat)
        (nb : List Nat) (r1 : BinaryReader),
        readDgoHeader r = some (⟨sz, nb⟩, r1) → ¬r1.bytes_left < sz →
        string_empty_after nb = false →
        parseObjs (n + 1) r acc = .error .MalformedHeader)
    ∧ (∀ (base data : List Nat) (sz : Nat) (nb : List Nat) (r1 : BinaryReader)
        (objs : List (List Nat × List Nat)) (r2 : BinaryReader),
        readDgoHeader (BinaryReader.mk data 0) = some (⟨sz, nb⟩, r1) →
        cString nb = base → string_empty_after nb = true →
        parseObjs sz r1 [] = .ok (objs, r2) → r2.bytes_left ≠ 0 →
        parse_dgo base data = .error .TrailingData)
    ∧ (∀ (base : List Nat) (objs : List (List Nat × List Nat)),
        WFName base → (∀ o ∈ objs, WFName o.1 ∧ o.2.length < 2 ^ 32) →
        objs.length < 2 ^ 32 →
        parse_dgo base (mkDgo base objs) = .ok objs) := by
  refine ⟨?_, ?_, ?_, ?_, parse_dgo_mkDgo⟩
  · intro base data sz nb r1 hr hcs hbad
    unfold parse_dgo
    rw [hr]
    dsimp only
    rw [hcs, if_neg (by simp), hbad]
    rfl
  · intro n r acc sz nb r1 hr htr
    simp only [parseObjs]
    rw [hr]
    dsimp only
    rw [if_pos htr]
  · intro n r acc sz nb r1 hr htr hbad
    simp only [parseObjs]
    rw [hr]
    dsimp only
    rw [if_neg htr, hbad]
    rfl
  · intro base data sz nb r1 objs r2 hr hcs hok hp hleft
    unfold parse_dgo
    rw [hr]
    dsimp only
    rw [hcs, if_neg (by simp), hok]
    rw [if_neg (by simp), hp]
    dsimp only
    rw [if_pos hleft]

/-- A 64-byte archive header whose name field is `"A\0B"` padded with
zeros: the nonzero byte after the terminator violates the padding rule. -/
def badPadHeader : List Nat := le32 0 ++ ([65, 0, 66] ++ List.replicate 57 0)

/-- A 64-byte object header declaring 1000 bytes that are not there. -/
def truncHeader : List Nat := le32 1000 ++ encodeName [66]

/-- A well-formed empty archive named `"A"` with one stray trailing byte. -/
def trailingArchive : List Nat := mkDgo [65] [] ++ [9]

/-- Closed instance of C6: the four error conditions on concrete 64-65 byte
archives, and a well-formed two-object archive that parses back exactly. -/
theorem C6_container_validation_witness :
    parse_dgo [65] badPadHeader = .error .MalformedHeader
    ∧ parseObjs 1 (BinaryReader.mk truncHeader 0) [] = .error .TruncatedObject
    ∧ parseObjs 1 (BinaryReader.mk badPadHeader 0) [] = .error .MalformedHeader
    ∧ parse_dgo [65] trailingArchive = .error .TrailingData
    ∧ parse_dgo [109] (mkDgo [109] [([97], [1, 2, 3]), ([98], [4, 5])])
        = .ok [([97], [1, 2, 3]), ([98], [4, 5])] :=
  ⟨C6_container_validation.1 [65] badPadHeader 0
      ([65, 0, 66] ++ List.replicate 57 0) (BinaryReader.mk badPadHeader 64)
      (by decide) (by decide) (by decide),
   C6_container_validation.2.1 0 (BinaryReader.mk truncHeader 0) [] 1000
      (encodeName [66]) (BinaryReader.mk truncHeader 64) (by decide) (by decide),
   C6_container_validation.2.2.1 0 (BinaryReader.mk badPadHeader 0) [] 0
      ([65, 0, 66] ++ List.replicate 57 0) (BinaryReader.mk badPadHeader 64)
      (by decide) (by decide) (by decide),
   C6_container_validation.2.2.2.1 [65] trailingArchive 0 (encodeName [65])
      (BinaryReader.mk trailingArchive 64) [] (BinaryReader.mk trailingArchive 64)
      (by decide) (by decide) (by decide) rfl (by decide),
   C6_container_validation.2.2.2.2 [109] [([97], [1, 2, 3]), ([98], [4, 5])]
      (by unfold WFName; decide) (by unfold WFName; decide) (by decide)⟩

end ObjDB
